import Mathlib

/-! # csv-evaluation: the fetch / parse / aggregate pipeline

A shallow embedding of `csv-evaluation/main.go`.

* Go strings are Lean strings; the standard-library calls the program makes
  (`strings.TrimSpace`, `strconv.Atoi`, `time.Parse` with layout `2006-01-02`)
  are embedded as executable functions with the library's behaviour.
* Go `int` is a 64-bit two's-complement integer: values are `Int`, and the
  arithmetic the program performs on them (`++`, `+=`) is wrapped by `wrap64`.
* A Go `map[string]int` is an association list with distinct keys.  The order
  in which `range` visits a map is unspecified, so every function that ranges
  over a map takes the order as a parameter `iter`; `RangeOrder.Valid iter`
  says `iter` visits every entry of the map exactly once.
* A run that ends in a run-time fault is `Except.error`; the channel `out` is
  the list of Tasks sent on it.
-/

namespace CsvEvaluation

/-! ## Go `int` -/

/-- The constant `math.MaxInt64`. -/
def MaxInt64 : Int := 9223372036854775807

/-- The constant `math.MinInt64`. -/
def MinInt64 : Int := -9223372036854775808

/-- Go `int` arithmetic is performed modulo `2^64`: the mathematical result is
reduced to the range `[-2^63, 2^63)`. -/
def wrap64 (x : Int) : Int :=
  (x + 9223372036854775808) % 18446744073709551616 - 9223372036854775808

/-- The values a Go `int` can hold. -/
def InInt64 (x : Int) : Prop := MinInt64 ≤ x ∧ x ≤ MaxInt64

instance (x : Int) : Decidable (InInt64 x) := by
  unfold InInt64; exact inferInstance

/-! ## `strings.TrimSpace` -/

/-- Go `unicode.IsSpace`: the Unicode White_Space code points. -/
def isSpace (c : Char) : Bool :=
  let n := c.toNat
  (9 ≤ n && n ≤ 13) || n == 32 || n == 0x85 || n == 0xA0 || n == 0x1680 ||
  (0x2000 ≤ n && n ≤ 0x200A) || n == 0x2028 || n == 0x2029 || n == 0x202F ||
  n == 0x205F || n == 0x3000

/-- Removal of the leading and the trailing white space of a character list. -/
def trimChars (cs : List Char) : List Char :=
  ((cs.dropWhile isSpace).reverse.dropWhile isSpace).reverse

/-- Go `strings.TrimSpace`. -/
def TrimSpace (s : String) : String := String.mk (trimChars s.data)

/-! ## `strconv.Atoi` -/

/-- ASCII decimal digit. -/
def isDigit (c : Char) : Bool := 48 ≤ c.toNat && c.toNat ≤ 57

/-- Value of an ASCII decimal digit. -/
def digitVal (c : Char) : Nat := c.toNat - 48

/-- Value of a digit string, most significant digit first. -/
def digitsValue (cs : List Char) : Nat :=
  cs.foldl (fun n c => n * 10 + digitVal c) 0

/-- The unsigned part of `strconv.Atoi`: one or more decimal digits, and the
signed value has to fit a 64-bit `int` (otherwise a range error). -/
def atoiDigits (neg : Bool) (ds : List Char) : Option Int :=
  if ds.isEmpty || !ds.all isDigit then none
  else if neg then
    (if digitsValue ds ≤ 9223372036854775808 then some (-(digitsValue ds : Int)) else none)
  else
    (if digitsValue ds < 9223372036854775808 then some (digitsValue ds : Int) else none)

/-- Go `strconv.Atoi` on a 64-bit platform: an optional sign followed by
decimal digits.  `none` stands for a non-nil error (syntax or range). -/
def Atoi (s : String) : Option Int :=
  match s.data with
  | [] => none
  | c :: ds =>
    if c = '-' then atoiDigits true ds
    else if c = '+' then atoiDigits false ds
    else atoiDigits false (c :: ds)

/-! ## `time.Parse("2006-01-02", value)` -/

/-- The part of a Go `time.Time` the program reads: the calendar date. -/
structure Time where
  year : Nat
  month : Nat
  day : Nat
deriving DecidableEq, Repr

/-- Method `Time.Year`. -/
def Time.Year (t : Time) : Int := (t.year : Int)

/-- Go `time.isLeap`. -/
def isLeap (year : Nat) : Bool :=
  year % 4 == 0 && (year % 100 != 0 || year % 400 == 0)

/-- Go `time.daysIn`: the number of days of month `m` in `year`. -/
def daysIn (m : Nat) (year : Nat) : Nat :=
  if m == 2 then (if isLeap year then 29 else 28)
  else if m == 4 || m == 6 || m == 9 || m == 11 then 30
  else 31

/-- Go `time.getnum`: a one- or two-digit number (two digits when `fixed`),
with the rest of the input. -/
def getnum (s : List Char) (fixed : Bool) : Option (Nat × List Char) :=
  match s with
  | [] => none
  | c0 :: rest =>
    if !isDigit c0 then none
    else match rest with
      | [] => if fixed then none else some (digitVal c0, [])
      | c1 :: rest1 =>
        if !isDigit c1 then (if fixed then none else some (digitVal c0, c1 :: rest1))
        else some (digitVal c0 * 10 + digitVal c1, rest1)

/-- Go `time.skip` for the literal text `-` between the layout elements: the
input has to start with it. -/
def skipDash (value : List Char) : Option (List Char) :=
  match value with
  | [] => none
  | c :: rest => if c = '-' then some rest else none

/-- The four-digit year element (`stdLongYear`) of the layout. -/
def getLongYear (value : List Char) : Option (Nat × List Char) :=
  match value with
  | y0 :: y1 :: y2 :: y3 :: rest =>
    if isDigit y0 && isDigit y1 && isDigit y2 && isDigit y3 then
      some (digitsValue [y0, y1, y2, y3], rest)
    else none
  | _ => none

/-- Go `time.Parse` with the layout `2006-01-02`: a four-digit year, a
two-digit month in `1..12` and a two-digit day that exists in that month,
separated by `-`, and nothing else.  `none` stands for a non-nil error. -/
def Parse (value : String) : Option Time :=
  match getLongYear value.data with
  | none => none
  | some (year, v1) =>
    match skipDash v1 with
    | none => none
    | some v2 =>
      match getnum v2 true with
      | none => none
      | some (month, v3) =>
        if month ≤ 0 || 12 < month then none
        else match skipDash v3 with
          | none => none
          | some v4 =>
            match getnum v4 true with
            | none => none
            | some (day, v5) =>
              if !v5.isEmpty then none
              else if day < 1 || day > daysIn month year then none
              else some ⟨year, month, day⟩

/-! ## Go maps -/

/-- A `map[string]int`: key/value entries with distinct keys. -/
abbrev GoMap := List (String × Int)

/-- Map read `v, ok := m[k]`. -/
def mapGet : GoMap → String → Option Int
  | [], _ => none
  | (k1, v1) :: m, k => if k1 = k then some v1 else mapGet m k

/-- Map write `m[k] = v`. -/
def mapSet : GoMap → String → Int → GoMap
  | [], k, v => [(k, v)]
  | (k1, v1) :: m, k, v => if k1 = k then (k, v) :: m else (k1, v1) :: mapSet m k v

/-- The order in which a `range` loop visits the entries of a map. -/
abbrev RangeOrder := GoMap → GoMap

/-- A `range` loop visits every entry of the map exactly once, in some order. -/
def RangeOrder.Valid (iter : RangeOrder) : Prop := ∀ m : GoMap, (iter m).Perm m

/-- The keys of a map are pairwise distinct. -/
def KeysNodup (m : GoMap) : Prop := (m.map Prod.fst).Nodup

/-! ## The data model of `main.go` -/

/-- Type `Speech` of the source. -/
structure Speech where
  Speaker : String
  Topic : String
  Date : String
  Words : Int
deriving DecidableEq, Repr

/-- Type `Task` of the source; `Error = none` is the nil error. -/
structure Task where
  Error : Option String
  SpeechValue : List Speech
deriving DecidableEq, Repr

/-! ## The aggregators -/

/-- The body of the counting loops:
`if _, ok := speakers[k]; ok then speakers[k]++ else speakers[k] = 1`. -/
def countSpeaker (speakers : GoMap) (k : String) : GoMap :=
  match mapGet speakers k with
  | some c => mapSet speakers k (wrap64 (c + 1))
  | none => mapSet speakers k 1

/-- The selection loop of `GetTopInMap`, from the state `(topKey, topItemCount)`. -/
def topLoop (it : GoMap) (init : String × Int) : String × Int :=
  it.foldl (fun top kv => if kv.2 > top.2 then (kv.1, kv.2) else top) init

/-- Function `GetTopInMap` of the source. -/
def GetTopInMap (iter : RangeOrder) (m : GoMap) : String :=
  (topLoop (iter m) ("", 0)).1

/-- The counting map of `ExtractMostSpeechesInYear`. -/
def yearMap (speeches : List Speech) (year : Int) : GoMap :=
  speeches.foldl
    (fun speakers speech =>
      match Parse (TrimSpace speech.Date) with
      | none => speakers
      | some datetime =>
        if datetime.Year = year then countSpeaker speakers speech.Speaker
        else speakers)
    []

/-- Function `ExtractMostSpeechesInYear` of the source: the speaker and the
error (always nil). -/
def ExtractMostSpeechesInYear (iter : RangeOrder) (speeches : List Speech) (year : Int) :
    String × Option String :=
  (GetTopInMap iter (yearMap speeches year), none)

/-- The counting map of `ExtractMostSpeechesInTopic`. -/
def topicMap (speeches : List Speech) (topic : String) : GoMap :=
  speeches.foldl
    (fun speakers speech =>
      if speech.Topic = topic then countSpeaker speakers speech.Speaker
      else speakers)
    []

/-- Function `ExtractMostSpeechesInTopic` of the source. -/
def ExtractMostSpeechesInTopic (iter : RangeOrder) (speeches : List Speech) (topic : String) :
    String × Option String :=
  (GetTopInMap iter (topicMap speeches topic), none)

/-- The body of the summing loop of `ExtractFewestWords`:
`if _, ok := speakers[k]; ok then speakers[k] += words else speakers[k] = words`. -/
def addWords (speakers : GoMap) (speech : Speech) : GoMap :=
  match mapGet speakers speech.Speaker with
  | some v => mapSet speakers speech.Speaker (wrap64 (v + speech.Words))
  | none => mapSet speakers speech.Speaker speech.Words

/-- The summing map of `ExtractFewestWords`. -/
def wordsMap (speeches : List Speech) : GoMap :=
  speeches.foldl addWords []

/-- The selection loop of `ExtractFewestWords`, from the state
`(fewestWords, fewest)`. -/
def fewestLoop (it : GoMap) (init : String × Int) : String × Int :=
  it.foldl (fun best kv => if kv.2 < best.2 then (kv.1, kv.2) else best) init

/-- Function `ExtractFewestWords` of the source. -/
def ExtractFewestWords (iter : RangeOrder) (speeches : List Speech) : String × Option String :=
  ((fewestLoop (iter (wordsMap speeches)) ("", MaxInt64)).1, none)

/-! ## The fetch worker `Process` and the merge loop of `evaluation` -/

/-- What `Process` obtains from its two calls into the environment:
`http.Get(url)` fails, or `reader.ReadAll()` fails, or `ReadAll` returns the
rows `data` (with `FieldsPerRecord = 4`, rows of four fields; no row at all
when the body is empty). -/
inductive Retrieval where
  | downloadFailed (err : String)
  | readFailed (readErr : String)
  | read (data : List (List String))
deriving DecidableEq, Repr

deriving instance DecidableEq for Except

/-- The retrieval or the CSV read failed. -/
def Retrieval.failed : Retrieval → Bool
  | .downloadFailed _ => true
  | .readFailed _ => true
  | .read _ => false

/-- The slice expression `data[1:]`: a run-time fault when `data` is empty. -/
def sliceFrom1 (data : List (List String)) : Except String (List (List String)) :=
  if data.length < 1 then .error "slice bounds out of range [1:0]"
  else .ok (data.drop 1)

/-- The index expression `row[i]`: a run-time fault when `i` is out of range. -/
def index (row : List String) (i : Nat) : Except String String :=
  match row[i]? with
  | some c => .ok c
  | none => .error "index out of range"

/-- The conversion loop of `Process` over the rows after the header, from the
records `speeches` appended so far. -/
def convertRows : List (List String) → List Speech → Except String (List Speech)
  | [], speeches => .ok speeches
  | row :: data, speeches =>
    match index row 3 with
    | .error e => .error e
    | .ok c3 =>
      match Atoi (TrimSpace c3) with
      | none => convertRows data speeches
      | some words =>
        match index row 0, index row 1, index row 2 with
        | .ok c0, .ok c1, .ok c2 =>
          convertRows data
            (speeches ++
              [{ Speaker := TrimSpace c0, Topic := TrimSpace c1, Date := TrimSpace c2,
                 Words := words }])
        | _, _, _ => .error "index out of range"

/-- Function `Process` of the source.  `out` holds the Tasks sent on the
channel so far; the result is the channel after `Process` has returned, or
the run-time fault that ended it. -/
def Process (out : List Task) (r : Retrieval) : Except String (List Task) :=
  match r with
  | .downloadFailed err =>
    .ok (out ++ [{ Error := some ("ERROR IN PROCESS(DOWNLOAD): " ++ err), SpeechValue := [] }])
  | .readFailed readErr =>
    .ok (out ++ [{ Error := some ("ERROR IN PROCESS(READ): " ++ readErr), SpeechValue := [] }])
  | .read data =>
    match sliceFrom1 data with
    | .error e => .error e
    | .ok rows =>
      match convertRows rows [] with
      | .error e => .error e
      | .ok speeches => .ok (out ++ [{ Error := none, SpeechValue := speeches }])

/-- The merge loop of the handler `evaluation`:
the records of the Tasks with a nil `Error`, appended in collection order. -/
def mergeTasks (tasks : List Task) : List Speech :=
  tasks.foldl
    (fun allSpeeches task =>
      if task.Error = none then allSpeeches ++ task.SpeechValue else allSpeeches)
    []

/-! ## Notions used to state the properties -/

/-- The counting loop of the two "most" aggregators, over the records selected
by `q`. -/
def countFold (q : Speech → Bool) (speeches : List Speech) : GoMap :=
  speeches.foldl (fun m s => if q s then countSpeaker m s.Speaker else m) []

/-- The number of records of speaker `k` among the records selected by `q`. -/
def speakerCount (q : Speech → Bool) (speeches : List Speech) (k : String) : Nat :=
  speeches.countP (fun s => q s && decide (s.Speaker = k))

/-- The year filter of `ExtractMostSpeechesInYear`: the date, with surrounding
white space removed, parses as a calendar date of the year. -/
def inYear (year : Int) (s : Speech) : Bool :=
  match Parse (TrimSpace s.Date) with
  | none => false
  | some datetime => decide (datetime.Year = year)

/-- The topic filter of `ExtractMostSpeechesInTopic`. -/
def inTopic (topic : String) (s : Speech) : Bool := decide (s.Topic = topic)

/-- The mathematical sum of `Words` over the records of speaker `k`. -/
def totalWords (speeches : List Speech) (k : String) : Int :=
  ((speeches.filter (fun s => decide (s.Speaker = k))).map Speech.Words).sum

/-- The conversion of one four-column row: the record of the row when the
trimmed fourth column is an integer for `strconv.Atoi`, no record otherwise. -/
def rowRecord (row : List String) : Option Speech :=
  match row with
  | [c0, c1, c2, c3] =>
    (Atoi (TrimSpace c3)).map
      (fun words =>
        { Speaker := TrimSpace c0, Topic := TrimSpace c1, Date := TrimSpace c2, Words := words })
  | _ => none

/-! ## Example data -/

/-- The records of the year example: two records of A in 2013, one of B in 2012. -/
def yearExample : List Speech :=
  [⟨"A", "T", "2013-05-01", 1⟩, ⟨"A", "T", "2013-06-01", 1⟩, ⟨"B", "T", "2012-01-01", 1⟩]

/-- The records of the topic example: the topic of A differs by letter case only. -/
def topicExample : List Speech :=
  [⟨"A", "internal security", "2013-05-01", 1⟩, ⟨"B", "Internal Security", "2013-06-01", 1⟩]

/-- The records of the fewest-words example: A sums to 15, B to 3. -/
def wordsExample : List Speech :=
  [⟨"A", "T", "2013-05-01", 10⟩, ⟨"A", "T", "2013-06-01", 5⟩, ⟨"B", "T", "2012-01-01", 3⟩]

/-- A single record whose `Words` is `math.MaxInt64`. -/
def sentinelRecords : List Speech :=
  [⟨"A", "T", "2013-01-01", 9223372036854775807⟩]

/-- The total of A exceeds `math.MaxInt64` by one, the total of B is 0. -/
def overflowRecords : List Speech :=
  [⟨"A", "T", "2013-01-01", 9223372036854775807⟩, ⟨"A", "T", "2013-01-02", 1⟩,
   ⟨"B", "T", "2013-01-01", 0⟩]

/-- The rows of the parser example: a header, a row with magnitude 5 and a row
with a non-numeric magnitude. -/
def rowsExample : List (List String) :=
  [["Speaker", "Topic", "Date", "Words"], ["A", "T", "2013-01-01", "5"],
   ["B", "T", "2013-01-01", "x"]]

/-- Three collected Tasks: a success, a failure and a success. -/
def tasksExample : List Task :=
  [⟨none, [⟨"A", "T", "2013-01-01", 5⟩, ⟨"B", "T", "2013-01-02", 6⟩]⟩,
   ⟨some "ERROR IN PROCESS(DOWNLOAD): timeout", []⟩,
   ⟨none, [⟨"C", "T", "2013-01-03", 7⟩]⟩]

/-! ## The handler `evaluation` -/

/-- Type `Response` of the source. -/
structure Response where
  MostSpeeches : String
  MostSecurity : String
  LeastWordy : String
deriving DecidableEq, Repr

/-- One pass of the `select` in the collection loop of `evaluation`: either
the receive `v, ok := <-out` fires, or the ten-second timer does. -/
inductive Slot where
  | received (v : Task) (ok : Bool)
  | timedOut
deriving DecidableEq, Repr

/-- The collection loop of `evaluation`, one pass per slot (`total` passes):
a received Task is appended when `ok`, a timeout only prints. -/
def collect (slots : List Slot) : List Task :=
  slots.foldl
    (fun tasks slot =>
      match slot with
      | .received v ok => if ok then tasks ++ [v] else tasks
      | .timedOut => tasks)
    []

/-- The part of `evaluation` after the collection loop: merge, the three
aggregators (each ranges over its own map, in its own order) and the
response. -/
def respond (iterYear iterTopic iterWords : RangeOrder) (tasks : List Task) : Response :=
  let allSpeeches := mergeTasks tasks
  let mostIn2013 := (ExtractMostSpeechesInYear iterYear allSpeeches 2013).1
  let mostInInternalSecurity :=
    (ExtractMostSpeechesInTopic iterTopic allSpeeches "Internal Security").1
  let fewest := (ExtractFewestWords iterWords allSpeeches).1
  { MostSecurity := mostInInternalSecurity, MostSpeeches := mostIn2013, LeastWordy := fewest }

/-- Function `evaluation` of the source from the collection loop on: the
response written for the outcomes of the `total` slots. -/
def evaluation (iterYear iterTopic iterWords : RangeOrder) (slots : List Slot) : Response :=
  respond iterYear iterTopic iterWords (collect slots)

/-- The Task sent in a slot that received one (the channel is never closed,
so `ok` is true in every run of the program). -/
def Slot.task : Slot → Option Task
  | .received v true => some v
  | .received _ false => none
  | .timedOut => none

/-- Two distinct speakers tie for the best count among the records selected
by `q`. -/
def TieMost (q : Speech → Bool) (speeches : List Speech) : Prop :=
  ∃ k1 k2 : String, k1 ≠ k2 ∧ 0 < speakerCount q speeches k1 ∧
    speakerCount q speeches k1 = speakerCount q speeches k2 ∧
    ∀ k, speakerCount q speeches k ≤ speakerCount q speeches k1

/-- Two distinct speakers of the list tie for the lowest total, the totals
being the 64-bit sums the program computes. -/
def TieFewest (speeches : List Speech) : Prop :=
  ∃ s1 ∈ speeches, ∃ s2 ∈ speeches, s1.Speaker ≠ s2.Speaker ∧
    wrap64 (totalWords speeches s1.Speaker) = wrap64 (totalWords speeches s2.Speaker) ∧
    ∀ s ∈ speeches, wrap64 (totalWords speeches s1.Speaker)
      ≤ wrap64 (totalWords speeches s.Speaker)

/-- Two distinct speakers of the list tie for the lowest total, the totals
being the mathematical sums of `Words`. -/
def TieFewestTrue (speeches : List Speech) : Prop :=
  ∃ s1 ∈ speeches, ∃ s2 ∈ speeches, s1.Speaker ≠ s2.Speaker ∧
    totalWords speeches s1.Speaker = totalWords speeches s2.Speaker ∧
    ∀ s ∈ speeches, totalWords speeches s1.Speaker ≤ totalWords speeches s.Speaker

/-- The fields of a record other than its date. -/
def Speech.undated (s : Speech) : String × String × Int := (s.Speaker, s.Topic, s.Words)

/-- The total of A is `2^64`, which wraps to 0; the total of B is 0. -/
def wrapTieRecords : List Speech :=
  [⟨"A", "T", "2013-01-01", 9223372036854775807⟩, ⟨"A", "T", "2013-01-02", 9223372036854775807⟩,
   ⟨"A", "T", "2013-01-03", 2⟩, ⟨"B", "T", "2013-01-01", 0⟩]

/-- A header and one row with a negative magnitude. -/
def negativeRows : List (List String) :=
  [["Speaker", "Topic", "Date", "Words"], ["A", "T", "2013-01-01", "-5"]]

/-- A header and one row whose magnitude is `math.MaxInt64`. -/
def sentinelRows : List (List String) :=
  [["Speaker", "Topic", "Date", "Words"], ["A", "T", "2013-01-01", "9223372036854775807"]]

/-- A header and a row with white space around every field. -/
def paddedRows : List (List String) :=
  [["Speaker", "Topic", "Date", "Words"], [" A ", "\tT", "2013-01-01 ", " 5 "]]

/-- Three slots: a success, a timeout and a success. -/
def slotsExample : List Slot :=
  [.received ⟨none, [⟨"A", "Internal Security", "2013-01-01", 5⟩]⟩ true, .timedOut,
   .received ⟨none, [⟨"A", "T", "2013-01-03", 7⟩, ⟨"B", "T", "2012-01-03", 3⟩]⟩ true]

/-- The string begins or ends with a white-space character. -/
def hasOuterSpace (x : String) : Bool :=
  (match x.data.head? with
    | some c => isSpace c
    | none => false) ||
  (match x.data.getLast? with
    | some c => isSpace c
    | none => false)

/-! ## Lemmas on Go `int` -/

theorem wrap64_of_inInt64 {x : Int} (h : InInt64 x) : wrap64 x = x := by
  unfold InInt64 MinInt64 MaxInt64 at h
  unfold wrap64
  omega

theorem wrap64_add_wrap64 (a w : Int) : wrap64 (wrap64 a + w) = wrap64 (a + w) := by
  unfold wrap64
  omega

theorem inInt64_wrap64 (x : Int) : InInt64 (wrap64 x) := by
  unfold InInt64 MinInt64 MaxInt64 wrap64
  omega

/-! ## The calendar of `time.Parse` -/

/-- Century years are leap years only when divisible by 400: 29 February
exists in 2000 and in 2012, not in 1900 and not in 2013. -/
theorem parse_leapDay :
    isLeap 2000 = true ∧ isLeap 1900 = false ∧ isLeap 2012 = true ∧ isLeap 2013 = false ∧
    Parse "2000-02-29" = some ⟨2000, 2, 29⟩ ∧ Parse "1900-02-29" = none ∧
    Parse "2012-02-29" = some ⟨2012, 2, 29⟩ ∧ Parse "2013-02-29" = none ∧
    Parse "1900-02-28" = some ⟨1900, 2, 28⟩ := by
  decide

/-- The year filter on century years: 1900-02-29 is no date, so it is not
counted for 1900; 2000-02-29 is a date of 2000 and is counted. -/
theorem yearMap_centuryYears :
    yearMap [⟨"A", "T", "1900-02-29", 1⟩, ⟨"A", "T", "1900-03-01", 1⟩,
        ⟨"B", "T", "1900-03-01", 1⟩] 1900 = [("A", 1), ("B", 1)] ∧
    ExtractMostSpeechesInYear id [⟨"A", "T", "2000-02-29", 1⟩] 2000 = ("A", none) ∧
    inYear 2000 ⟨"A", "T", "2000-02-29", 1⟩ = true ∧
    inYear 1900 ⟨"A", "T", "1900-02-29", 1⟩ = false := by
  decide

/-! ## Lemmas on maps -/

theorem mapGet_mapSet (m : GoMap) (k : String) (v : Int) (k1 : String) :
    mapGet (mapSet m k v) k1 = if k = k1 then some v else mapGet m k1 := by
  induction m with
  | nil => simp [mapSet, mapGet]
  | cons e m ih =>
    obtain ⟨k0, v0⟩ := e
    by_cases h0 : k0 = k
    · subst h0
      by_cases h1 : k0 = k1 <;> simp [mapSet, mapGet, h1]
    · by_cases h1 : k0 = k1
      · subst h1
        have h2 : ¬ k = k0 := fun h => h0 h.symm
        simp [mapSet, mapGet, h0, h2]
      · simp [mapSet, mapGet, h0, h1, ih]

theorem mem_of_mapGet {m : GoMap} {k : String} {v : Int} (h : mapGet m k = some v) :
    (k, v) ∈ m := by
  induction m with
  | nil => simp [mapGet] at h
  | cons e m ih =>
    obtain ⟨k0, v0⟩ := e
    by_cases h0 : k0 = k
    · subst h0
      simp [mapGet] at h
      simp [h]
    · simp [mapGet, h0] at h
      exact List.mem_cons_of_mem _ (ih h)

theorem mapGet_of_mem {m : GoMap} (hm : KeysNodup m) {k : String} {v : Int}
    (h : (k, v) ∈ m) : mapGet m k = some v := by
  induction m with
  | nil => simp at h
  | cons e m ih =>
    obtain ⟨k0, v0⟩ := e
    unfold KeysNodup at hm
    simp only [List.map_cons, List.nodup_cons, List.mem_map, not_exists, not_and] at hm
    rcases List.mem_cons.mp h with h1 | h1
    · cases h1
      simp [mapGet]
    · have h0 : ¬ k0 = k := by
        intro hk
        exact hm.1 (k, v) h1 hk.symm
      simp only [mapGet, h0, if_false]
      exact ih hm.2 h1

theorem mem_keys_mapSet (m : GoMap) (k : String) (v : Int) (k1 : String) :
    k1 ∈ (mapSet m k v).map Prod.fst ↔ k1 = k ∨ k1 ∈ m.map Prod.fst := by
  induction m with
  | nil => simp [mapSet]
  | cons e m ih =>
    obtain ⟨k0, v0⟩ := e
    by_cases h0 : k0 = k
    · subst h0
      simp [mapSet]
    · simp only [mapSet, h0, if_false, List.map_cons, List.mem_cons, ih]
      tauto

theorem keysNodup_mapSet {m : GoMap} (hm : KeysNodup m) (k : String) (v : Int) :
    KeysNodup (mapSet m k v) := by
  induction m with
  | nil => simp [mapSet, KeysNodup]
  | cons e m ih =>
    obtain ⟨k0, v0⟩ := e
    unfold KeysNodup at hm ⊢
    simp only [List.map_cons, List.nodup_cons] at hm
    by_cases h0 : k0 = k
    · subst h0
      simp only [mapSet, if_true, List.map_cons, List.nodup_cons]
      exact hm
    · simp only [mapSet, h0, if_false, List.map_cons, List.nodup_cons]
      refine ⟨?_, ih hm.2⟩
      intro hmem
      rcases (mem_keys_mapSet m k v k0).mp hmem with h1 | h1
      · exact h0 h1
      · exact hm.1 h1

theorem keysNodup_nil : KeysNodup ([] : GoMap) := by
  simp [KeysNodup]

/-- A valid range order visits nothing on the empty map. -/
theorem RangeOrder.Valid.nil {iter : RangeOrder} (h : RangeOrder.Valid iter) : iter [] = [] :=
  List.Perm.eq_nil (h [])

theorem RangeOrder.Valid.mem {iter : RangeOrder} (h : RangeOrder.Valid iter) (m : GoMap)
    (e : String × Int) : e ∈ iter m ↔ e ∈ m :=
  (h m).mem_iff

theorem rangeOrder_valid_id : RangeOrder.Valid id := fun _ => List.Perm.refl _

/-! ## The selection loops -/

theorem topLoop_spec (it : GoMap) (init : String × Int) :
    init.2 ≤ (topLoop it init).2 ∧
    (∀ e ∈ it, e.2 ≤ (topLoop it init).2) ∧
    (topLoop it init = init ∨ topLoop it init ∈ it) := by
  induction it generalizing init with
  | nil => simp [topLoop]
  | cons e it ih =>
    have hstep : topLoop (e :: it) init
        = topLoop it (if e.2 > init.2 then (e.1, e.2) else init) := by
      simp [topLoop]
    rw [hstep]
    by_cases h : e.2 > init.2
    · simp only [h, if_true]
      obtain ⟨h1, h2, h3⟩ := ih (e.1, e.2)
      refine ⟨le_trans (le_of_lt h) h1, ?_, ?_⟩
      · intro x hx
        rcases List.mem_cons.mp hx with hx | hx
        · subst hx; exact h1
        · exact h2 x hx
      · right
        rcases h3 with h3 | h3
        · rw [h3]; exact List.mem_cons_self _ _
        · exact List.mem_cons_of_mem _ h3
    · simp only [h, if_false]
      obtain ⟨h1, h2, h3⟩ := ih init
      refine ⟨h1, ?_, ?_⟩
      · intro x hx
        rcases List.mem_cons.mp hx with hx | hx
        · subst hx; exact le_trans (not_lt.mp h) h1
        · exact h2 x hx
      · rcases h3 with h3 | h3
        · exact Or.inl h3
        · exact Or.inr (List.mem_cons_of_mem _ h3)

theorem fewestLoop_spec (it : GoMap) (init : String × Int) :
    (fewestLoop it init).2 ≤ init.2 ∧
    (∀ e ∈ it, (fewestLoop it init).2 ≤ e.2) ∧
    (fewestLoop it init = init ∨ fewestLoop it init ∈ it) := by
  induction it generalizing init with
  | nil => simp [fewestLoop]
  | cons e it ih =>
    have hstep : fewestLoop (e :: it) init
        = fewestLoop it (if e.2 < init.2 then (e.1, e.2) else init) := by
      simp [fewestLoop]
    rw [hstep]
    by_cases h : e.2 < init.2
    · simp only [h, if_true]
      obtain ⟨h1, h2, h3⟩ := ih (e.1, e.2)
      refine ⟨le_trans h1 (le_of_lt h), ?_, ?_⟩
      · intro x hx
        rcases List.mem_cons.mp hx with hx | hx
        · subst hx; exact h1
        · exact h2 x hx
      · right
        rcases h3 with h3 | h3
        · rw [h3]; exact List.mem_cons_self _ _
        · exact List.mem_cons_of_mem _ h3
    · simp only [h, if_false]
      obtain ⟨h1, h2, h3⟩ := ih init
      refine ⟨h1, ?_, ?_⟩
      · intro x hx
        rcases List.mem_cons.mp hx with hx | hx
        · subst hx; exact le_trans h1 (not_lt.mp h)
        · exact h2 x hx
      · rcases h3 with h3 | h3
        · exact Or.inl h3
        · exact Or.inr (List.mem_cons_of_mem _ h3)

/-- On a map with an entry above zero, `GetTopInMap` returns a key of the map
whose value is the greatest value of the map. -/
theorem getTopInMap_max {iter : RangeOrder} (hv : RangeOrder.Valid iter) {m : GoMap}
    (hm : KeysNodup m) (hpos : ∃ e ∈ m, 0 < e.2) :
    ∃ v, mapGet m (GetTopInMap iter m) = some v ∧ 0 < v ∧
      ∀ k1 v1, mapGet m k1 = some v1 → v1 ≤ v := by
  obtain ⟨h1, h2, h3⟩ := topLoop_spec (iter m) ("", 0)
  obtain ⟨e, he, hepos⟩ := hpos
  have hge : e.2 ≤ (topLoop (iter m) ("", 0)).2 := h2 e ((hv.mem m e).mpr he)
  have hpos2 : 0 < (topLoop (iter m) ("", 0)).2 := lt_of_lt_of_le hepos hge
  have hmem : topLoop (iter m) ("", 0) ∈ m := by
    rcases h3 with h3 | h3
    · rw [h3] at hpos2
      exact absurd hpos2 (lt_irrefl _)
    · exact (hv.mem m _).mp h3
  refine ⟨(topLoop (iter m) ("", 0)).2, ?_, hpos2, ?_⟩
  · exact mapGet_of_mem hm hmem
  · intro k1 v1 hk
    exact h2 (k1, v1) ((hv.mem m _).mpr (mem_of_mapGet hk))

/-- On the empty map `GetTopInMap` returns the empty string. -/
theorem getTopInMap_nil {iter : RangeOrder} (hv : RangeOrder.Valid iter) :
    GetTopInMap iter [] = "" := by
  simp [GetTopInMap, hv.nil, topLoop]

/-! ## The counting loops -/

theorem yearMap_eq (speeches : List Speech) (year : Int) :
    yearMap speeches year = countFold (inYear year) speeches := by
  unfold yearMap countFold
  congr 1
  funext m s
  unfold inYear
  cases h : Parse (TrimSpace s.Date) with
  | none => simp
  | some t => by_cases h2 : t.Year = year <;> simp [h2]

theorem topicMap_eq (speeches : List Speech) (topic : String) :
    topicMap speeches topic = countFold (inTopic topic) speeches := by
  unfold topicMap countFold
  congr 1
  funext m s
  unfold inTopic
  by_cases h2 : s.Topic = topic <;> simp [h2]

theorem countFold_snoc (q : Speech → Bool) (l : List Speech) (a : Speech) :
    countFold q (l ++ [a])
      = if q a then countSpeaker (countFold q l) a.Speaker else countFold q l := by
  simp [countFold, List.foldl_append]

theorem speakerCount_snoc (q : Speech → Bool) (l : List Speech) (a : Speech) (k : String) :
    speakerCount q (l ++ [a]) k
      = speakerCount q l k + (if q a = true ∧ a.Speaker = k then 1 else 0) := by
  unfold speakerCount
  rw [List.countP_append, List.countP_cons, List.countP_nil]
  by_cases h1 : q a = true <;> by_cases h2 : a.Speaker = k <;> simp [h1, h2]

theorem speakerCount_le_length (q : Speech → Bool) (l : List Speech) (k : String) :
    speakerCount q l k ≤ l.length :=
  List.countP_le_length _

theorem mapGet_countSpeaker (m : GoMap) (k k1 : String) :
    mapGet (countSpeaker m k) k1
      = if k = k1 then
          some (match mapGet m k with
            | some c => wrap64 (c + 1)
            | none => 1)
        else mapGet m k1 := by
  unfold countSpeaker
  cases h : mapGet m k <;> simp [mapGet_mapSet]

theorem keysNodup_countSpeaker {m : GoMap} (hm : KeysNodup m) (k : String) :
    KeysNodup (countSpeaker m k) := by
  unfold countSpeaker
  cases h : mapGet m k <;> exact keysNodup_mapSet hm _ _

/-- The counting map holds, for every speaker with at least one selected
record, the number of that speaker's selected records, and no other key.
A Go slice has fewer than `2^63` elements, so the counters do not wrap. -/
theorem countFold_spec (q : Speech → Bool) (l : List Speech)
    (hlen : (l.length : Int) ≤ MaxInt64) :
    KeysNodup (countFold q l) ∧
    ∀ k, mapGet (countFold q l) k
      = if speakerCount q l k = 0 then none else some (speakerCount q l k : Int) := by
  induction l using List.reverseRecOn with
  | nil => exact ⟨keysNodup_nil, fun k => by simp [countFold, speakerCount, mapGet]⟩
  | append_singleton l a ih =>
    have hlen1 : (l.length : Int) + 1 ≤ MaxInt64 := by
      simpa using hlen
    obtain ⟨ih1, ih2⟩ := ih (by omega)
    rw [countFold_snoc]
    by_cases hq : q a = true
    · simp only [hq, if_true]
      refine ⟨keysNodup_countSpeaker ih1 _, fun k => ?_⟩
      rw [mapGet_countSpeaker, speakerCount_snoc, ih2]
      by_cases hk : a.Speaker = k
      · subst hk
        have hle := speakerCount_le_length q l a.Speaker
        by_cases h0 : speakerCount q l a.Speaker = 0
        · simp [hq, h0]
        · have hw : wrap64 ((speakerCount q l a.Speaker : Int) + 1)
              = (speakerCount q l a.Speaker : Int) + 1 := by
            apply wrap64_of_inInt64
            unfold InInt64 MinInt64
            unfold MaxInt64 at hlen1 ⊢
            omega
          simp [hq, h0, hw]
      · simp [hk, ih2]
    · rw [if_neg hq]
      refine ⟨ih1, fun k => ?_⟩
      rw [speakerCount_snoc, ih2]
      simp [hq]

/-- No selected record: the counting map stays empty. -/
theorem countFold_eq_nil (q : Speech → Bool) (l : List Speech)
    (h : ∀ s ∈ l, q s = false) : countFold q l = [] := by
  induction l using List.reverseRecOn with
  | nil => rfl
  | append_singleton l a ih =>
    rw [countFold_snoc, ih (fun s hs => h s (List.mem_append_left _ hs))]
    simp [h a (by simp)]

/-- Only the selected records are counted: dropping the others leaves every
counter unchanged. -/
theorem countFold_filter (q : Speech → Bool) (l : List Speech) :
    countFold q (l.filter q) = countFold q l := by
  induction l using List.reverseRecOn with
  | nil => rfl
  | append_singleton l a ih =>
    rw [List.filter_append, countFold_snoc]
    by_cases hq : q a = true
    · have : List.filter q [a] = [a] := by simp [hq]
      rw [this, countFold_snoc, ih]
    · have : List.filter q [a] = [] := by simp [hq]
      rw [this, List.append_nil, ih]
      simp [hq]

theorem speakerCount_pos_of_mem (q : Speech → Bool) (l : List Speech) (s : Speech)
    (hs : s ∈ l) (hq : q s = true) : 0 < speakerCount q l s.Speaker := by
  unfold speakerCount
  rw [List.countP_pos_iff]
  exact ⟨s, hs, by simp [hq]⟩

/-- The "most" selection over a counting map: when some record is selected,
the returned speaker has the greatest number of selected records. -/
theorem countFold_top {iter : RangeOrder} (hv : RangeOrder.Valid iter) (q : Speech → Bool)
    (l : List Speech) (hlen : (l.length : Int) ≤ MaxInt64) (h : ∃ s ∈ l, q s = true) :
    0 < speakerCount q l (GetTopInMap iter (countFold q l)) ∧
    ∀ k, speakerCount q l k ≤ speakerCount q l (GetTopInMap iter (countFold q l)) := by
  obtain ⟨hnd, hget⟩ := countFold_spec q l hlen
  obtain ⟨s, hs, hq⟩ := h
  have hpos : ∃ e ∈ countFold q l, 0 < e.2 := by
    have hc := speakerCount_pos_of_mem q l s hs hq
    have hg := hget s.Speaker
    rw [if_neg (by omega)] at hg
    exact ⟨(s.Speaker, (speakerCount q l s.Speaker : Int)), mem_of_mapGet hg, by
      show (0 : Int) < (speakerCount q l s.Speaker : Int)
      omega⟩
  obtain ⟨v, hv1, hv2, hv3⟩ := getTopInMap_max hv hnd hpos
  have htop := hget (GetTopInMap iter (countFold q l))
  rw [hv1] at htop
  by_cases h0 : speakerCount q l (GetTopInMap iter (countFold q l)) = 0
  · rw [if_pos h0] at htop
    cases htop
  · rw [if_neg h0] at htop
    have hveq : v = (speakerCount q l (GetTopInMap iter (countFold q l)) : Int) :=
      Option.some.inj htop
    refine ⟨by omega, fun k => ?_⟩
    by_cases hk : speakerCount q l k = 0
    · omega
    · have hgk := hget k
      rw [if_neg hk] at hgk
      have := hv3 k _ hgk
      omega

/-! ## The summing loop of `ExtractFewestWords` -/

theorem wordsMap_snoc (l : List Speech) (a : Speech) :
    wordsMap (l ++ [a]) = addWords (wordsMap l) a := by
  simp [wordsMap, List.foldl_append]

theorem totalWords_snoc (l : List Speech) (a : Speech) (k : String) :
    totalWords (l ++ [a]) k = totalWords l k + (if a.Speaker = k then a.Words else 0) := by
  unfold totalWords
  by_cases h : a.Speaker = k <;> simp [List.filter_append, h]

theorem totalWords_eq_zero (l : List Speech) (k : String)
    (h : k ∉ l.map Speech.Speaker) : totalWords l k = 0 := by
  unfold totalWords
  have : l.filter (fun s => decide (s.Speaker = k)) = [] := by
    rw [List.filter_eq_nil_iff]
    intro s hs hk
    exact h (List.mem_map.mpr ⟨s, hs, by simpa using hk⟩)
  rw [this]
  rfl

theorem mapGet_addWords (m : GoMap) (a : Speech) (k : String) :
    mapGet (addWords m a) k
      = if a.Speaker = k then
          some (match mapGet m a.Speaker with
            | some v => wrap64 (v + a.Words)
            | none => a.Words)
        else mapGet m k := by
  unfold addWords
  cases h : mapGet m a.Speaker <;> simp [mapGet_mapSet]

theorem keysNodup_addWords {m : GoMap} (hm : KeysNodup m) (a : Speech) :
    KeysNodup (addWords m a) := by
  unfold addWords
  cases h : mapGet m a.Speaker <;> exact keysNodup_mapSet hm _ _

/-- The summing map holds, for every speaker of the list, the sum of that
speaker's `Words` reduced to the 64-bit range, and no other key. -/
theorem wordsMap_spec (l : List Speech) (hw : ∀ s ∈ l, InInt64 s.Words) :
    KeysNodup (wordsMap l) ∧
    ∀ k, mapGet (wordsMap l) k
      = if k ∈ l.map Speech.Speaker then some (wrap64 (totalWords l k)) else none := by
  induction l using List.reverseRecOn with
  | nil => exact ⟨keysNodup_nil, fun k => by simp [wordsMap, mapGet]⟩
  | append_singleton l a ih =>
    obtain ⟨ih1, ih2⟩ := ih (fun s hs => hw s (List.mem_append_left _ hs))
    have hwa : InInt64 a.Words := hw a (by simp)
    rw [wordsMap_snoc]
    refine ⟨keysNodup_addWords ih1 a, fun k => ?_⟩
    rw [mapGet_addWords, totalWords_snoc, ih2]
    by_cases hk : a.Speaker = k
    · subst hk
      have hmem : a.Speaker ∈ (l ++ [a]).map Speech.Speaker := by simp
      rw [if_pos rfl, if_pos hmem, if_pos rfl]
      by_cases hin : a.Speaker ∈ l.map Speech.Speaker
      · rw [if_pos hin]
        simp only [wrap64_add_wrap64]
      · rw [if_neg hin, totalWords_eq_zero l _ hin]
        simp only [zero_add, wrap64_of_inInt64 hwa]
    · rw [if_neg hk, if_neg hk, ih2, add_zero]
      have hiff : k ∈ (l ++ [a]).map Speech.Speaker ↔ k ∈ l.map Speech.Speaker := by
        have hk2 : ¬ k = a.Speaker := fun h => hk h.symm
        simp [hk2]
      by_cases hin : k ∈ l.map Speech.Speaker
      · rw [if_pos hin, if_pos (hiff.mpr hin)]
      · rw [if_neg hin, if_neg (fun h => hin (hiff.mp h))]

/-- The "fewest" selection: when some speaker's 64-bit total is below the
initial minimum `math.MaxInt64`, the returned speaker occurs in the list and
has the least 64-bit total. -/
theorem wordsMap_fewest {iter : RangeOrder} (hv : RangeOrder.Valid iter) (l : List Speech)
    (hw : ∀ s ∈ l, InInt64 s.Words)
    (h : ∃ s ∈ l, wrap64 (totalWords l s.Speaker) < MaxInt64) :
    (ExtractFewestWords iter l).1 ∈ l.map Speech.Speaker ∧
    ∀ s ∈ l, wrap64 (totalWords l (ExtractFewestWords iter l).1)
      ≤ wrap64 (totalWords l s.Speaker) := by
  obtain ⟨hnd, hget⟩ := wordsMap_spec l hw
  obtain ⟨h1, h2, h3⟩ := fewestLoop_spec (iter (wordsMap l)) ("", MaxInt64)
  have hres : (ExtractFewestWords iter l).1
      = (fewestLoop (iter (wordsMap l)) ("", MaxInt64)).1 := rfl
  rw [hres]
  generalize fewestLoop (iter (wordsMap l)) ("", MaxInt64) = r at h1 h2 h3 ⊢
  obtain ⟨rk, rv⟩ := r
  simp only at h1 h2 h3 ⊢
  have hentry : ∀ s ∈ l, (s.Speaker, wrap64 (totalWords l s.Speaker)) ∈ iter (wordsMap l) := by
    intro s hs
    apply (hv.mem _ _).mpr
    apply mem_of_mapGet
    rw [hget, if_pos (List.mem_map.mpr ⟨s, hs, rfl⟩)]
  obtain ⟨s0, hs0, hlt⟩ := h
  have hlt2 : rv < MaxInt64 := lt_of_le_of_lt (h2 _ (hentry s0 hs0)) hlt
  have hmem : (rk, rv) ∈ wordsMap l := by
    rcases h3 with h3 | h3
    · have : rv = MaxInt64 := (Prod.mk.inj h3).2
      rw [this] at hlt2
      exact absurd hlt2 (lt_irrefl _)
    · exact (hv.mem _ _).mp h3
  have hg := mapGet_of_mem hnd hmem
  rw [hget] at hg
  by_cases hin : rk ∈ l.map Speech.Speaker
  · rw [if_pos hin] at hg
    have hval := Option.some.inj hg
    refine ⟨hin, fun s hs => ?_⟩
    rw [hval]
    exact h2 _ (hentry s hs)
  · rw [if_neg hin] at hg
    cases hg

/-! ## The conversion loop of `Process` and the merge loop -/

theorem convertRows_eq (rows : List (List String)) (h4 : ∀ row ∈ rows, row.length = 4)
    (speeches : List Speech) :
    convertRows rows speeches = .ok (speeches ++ rows.filterMap rowRecord) := by
  induction rows generalizing speeches with
  | nil => simp [convertRows]
  | cons row rows ih =>
    have hrow : row.length = 4 := h4 row (by simp)
    have hrest : ∀ r ∈ rows, r.length = 4 := fun r hr => h4 r (List.mem_cons_of_mem _ hr)
    rcases row with _ | ⟨c0, _ | ⟨c1, _ | ⟨c2, _ | ⟨c3, _ | ⟨c4, rest⟩⟩⟩⟩⟩ <;>
      simp at hrow
    cases hA : Atoi (TrimSpace c3) with
    | none => simp [convertRows, index, hA, rowRecord, ih hrest]
    | some words => simp [convertRows, index, hA, rowRecord, ih hrest]

theorem mergeTasks_snoc (tasks : List Task) (t : Task) :
    mergeTasks (tasks ++ [t])
      = if t.Error = none then mergeTasks tasks ++ t.SpeechValue else mergeTasks tasks := by
  simp [mergeTasks, List.foldl_append]

theorem mergeTasks_eq (tasks : List Task) :
    mergeTasks tasks
      = ((tasks.filter (fun t => decide (t.Error = none))).map Task.SpeechValue).flatten := by
  induction tasks using List.reverseRecOn with
  | nil => rfl
  | append_singleton tasks t ih =>
    rw [mergeTasks_snoc, ih]
    by_cases h : t.Error = none <;> simp [h, List.filter_append]

theorem process_read_cons (out : List Task) (header : List String) (rows : List (List String))
    (h4 : ∀ row ∈ rows, row.length = 4) :
    Process out (.read (header :: rows))
      = .ok (out ++ [{ Error := none, SpeechValue := rows.filterMap rowRecord }]) := by
  simp [Process, sliceFrom1, convertRows_eq rows h4]

theorem length_filterMap_rowRecord_le (rows : List (List String)) :
    (rows.filterMap rowRecord).length ≤ rows.length :=
  List.length_filterMap_le _ _

/-! ## The aggregators -/

/-- C1. For every record list (a Go slice, so of length at most `MaxInt64`),
every year and every iteration order of the counting map: if some record has
a date that (after the `TrimSpace` the function applies) parses as a calendar
date of that year, `ExtractMostSpeechesInYear` returns, with a nil error, a
speaker with at least one such record whose number of in-year records is at
least that of every speaker.  The counting map holds for each speaker exactly
the number of that speaker's in-year records, so records whose date does not
parse or falls in another year add nothing: removing them changes neither the
map nor the result. -/
theorem extractMostSpeechesInYear_most (iter : RangeOrder) (hv : RangeOrder.Valid iter)
    (speeches : List Speech) (year : Int) (hlen : (speeches.length : Int) ≤ MaxInt64)
    (h : ∃ s ∈ speeches, inYear year s = true) :
    (ExtractMostSpeechesInYear iter speeches year).2 = none ∧
    0 < speakerCount (inYear year) speeches (ExtractMostSpeechesInYear iter speeches year).1 ∧
    (∀ k, speakerCount (inYear year) speeches k
      ≤ speakerCount (inYear year) speeches (ExtractMostSpeechesInYear iter speeches year).1) ∧
    (∀ k, mapGet (yearMap speeches year) k
      = if speakerCount (inYear year) speeches k = 0 then none
        else some (speakerCount (inYear year) speeches k : Int)) ∧
    yearMap (speeches.filter (inYear year)) year = yearMap speeches year ∧
    ExtractMostSpeechesInYear iter (speeches.filter (inYear year)) year
      = ExtractMostSpeechesInYear iter speeches year := by
  have hfilter : yearMap (speeches.filter (inYear year)) year = yearMap speeches year := by
    rw [yearMap_eq, yearMap_eq, countFold_filter]
  have htop := countFold_top hv (inYear year) speeches hlen h
  refine ⟨rfl, ?_, ?_, ?_, hfilter, ?_⟩
  · simpa [ExtractMostSpeechesInYear, yearMap_eq] using htop.1
  · simpa [ExtractMostSpeechesInYear, yearMap_eq] using htop.2
  · rw [yearMap_eq]
    exact (countFold_spec (inYear year) speeches hlen).2
  · simp only [ExtractMostSpeechesInYear, hfilter]

/-- C1, at the year example with the map visited in insertion order. -/
theorem extractMostSpeechesInYear_most_witness :
    (yearExample.length : Int) ≤ MaxInt64 ∧
    (∃ s ∈ yearExample, inYear 2013 s = true) ∧
    ExtractMostSpeechesInYear id yearExample 2013 = ("A", none) ∧
    speakerCount (inYear 2013) yearExample "A" = 2 ∧
    speakerCount (inYear 2013) yearExample "B" = 0 ∧
    (∀ k, speakerCount (inYear 2013) yearExample k
      ≤ speakerCount (inYear 2013) yearExample (ExtractMostSpeechesInYear id yearExample 2013).1) :=
  ⟨by decide, ⟨⟨"A", "T", "2013-05-01", 1⟩, by decide, by decide⟩, by decide, by decide,
    by decide,
    (extractMostSpeechesInYear_most id rangeOrder_valid_id yearExample 2013 (by decide)
      ⟨⟨"A", "T", "2013-05-01", 1⟩, by decide, by decide⟩).2.2.1⟩

/-- C2. For every record list (a Go slice, so of length at most `MaxInt64`),
every topic and every iteration order of the counting map: if some record has
a Topic equal to the topic, `ExtractMostSpeechesInTopic` returns, with a nil
error, a speaker with at least one such record whose number of matching
records is at least that of every speaker.  The counting map holds for each
speaker exactly the number of that speaker's records whose Topic is the given
string, so removing the other records changes neither the map nor the result;
a record with topic `internal security` is not counted for `Internal Security`. -/
theorem extractMostSpeechesInTopic_most (iter : RangeOrder) (hv : RangeOrder.Valid iter)
    (speeches : List Speech) (topic : String) (hlen : (speeches.length : Int) ≤ MaxInt64)
    (h : ∃ s ∈ speeches, s.Topic = topic) :
    (ExtractMostSpeechesInTopic iter speeches topic).2 = none ∧
    0 < speakerCount (inTopic topic) speeches (ExtractMostSpeechesInTopic iter speeches topic).1 ∧
    (∀ k, speakerCount (inTopic topic) speeches k
      ≤ speakerCount (inTopic topic) speeches (ExtractMostSpeechesInTopic iter speeches topic).1) ∧
    (∀ k, mapGet (topicMap speeches topic) k
      = if speakerCount (inTopic topic) speeches k = 0 then none
        else some (speakerCount (inTopic topic) speeches k : Int)) ∧
    topicMap (speeches.filter (fun s => decide (s.Topic = topic))) topic
      = topicMap speeches topic ∧
    ExtractMostSpeechesInTopic iter (speeches.filter (fun s => decide (s.Topic = topic))) topic
      = ExtractMostSpeechesInTopic iter speeches topic ∧
    (∀ (a b : Speech), a.Topic = "internal security" → b.Topic = "Internal Security" →
      topicMap [a, b] "Internal Security" = [(b.Speaker, 1)] ∧
      ExtractMostSpeechesInTopic iter [a, b] "Internal Security" = (b.Speaker, none)) := by
  have hfilter : topicMap (speeches.filter (fun s => decide (s.Topic = topic))) topic
      = topicMap speeches topic := by
    rw [topicMap_eq, topicMap_eq]
    exact countFold_filter (inTopic topic) speeches
  have h2 : ∃ s ∈ speeches, inTopic topic s = true := by
    obtain ⟨s, hs, ht⟩ := h
    exact ⟨s, hs, by simp [inTopic, ht]⟩
  have htop := countFold_top hv (inTopic topic) speeches hlen h2
  refine ⟨rfl, ?_, ?_, ?_, hfilter, ?_, ?_⟩
  · simpa [ExtractMostSpeechesInTopic, topicMap_eq] using htop.1
  · simpa [ExtractMostSpeechesInTopic, topicMap_eq] using htop.2
  · rw [topicMap_eq]
    exact (countFold_spec (inTopic topic) speeches hlen).2
  · simp only [ExtractMostSpeechesInTopic, hfilter]
  · intro a b ha hb
    have hne : ¬ ("internal security" = "Internal Security") := by decide
    have hmap : topicMap [a, b] "Internal Security" = [(b.Speaker, 1)] := by
      simp [topicMap, ha, hb, hne, countSpeaker, mapGet, mapSet]
    refine ⟨hmap, ?_⟩
    have hit : iter [(b.Speaker, 1)] = [(b.Speaker, 1)] :=
      List.perm_singleton.mp (hv _)
    simp [ExtractMostSpeechesInTopic, GetTopInMap, hmap, hit, topLoop]

/-- C2, at the topic example with the map visited in insertion order. -/
theorem extractMostSpeechesInTopic_most_witness :
    (topicExample.length : Int) ≤ MaxInt64 ∧
    (∃ s ∈ topicExample, s.Topic = "Internal Security") ∧
    ExtractMostSpeechesInTopic id topicExample "Internal Security" = ("B", none) ∧
    speakerCount (inTopic "Internal Security") topicExample "A" = 0 ∧
    (∀ k, speakerCount (inTopic "Internal Security") topicExample k
      ≤ speakerCount (inTopic "Internal Security") topicExample
          (ExtractMostSpeechesInTopic id topicExample "Internal Security").1) :=
  ⟨by decide, ⟨⟨"B", "Internal Security", "2013-06-01", 1⟩, by decide, by decide⟩, by decide,
    by decide,
    (extractMostSpeechesInTopic_most id rangeOrder_valid_id topicExample "Internal Security"
      (by decide) ⟨⟨"B", "Internal Security", "2013-06-01", 1⟩, by decide, by decide⟩).2.2.1⟩

/-- C3 as stated fails.  On the single record (A, `math.MaxInt64`) the
selection never replaces the initial result, so `ExtractFewestWords` returns
the empty string, which is no speaker of the list.  On the records
(A, `math.MaxInt64`), (A, 1), (B, 0) the sum of A wraps to `math.MinInt64` and
A is returned, although the total of B is the smaller one. -/
theorem extractFewestWords_counterexample :
    sentinelRecords ≠ [] ∧
    ExtractFewestWords id sentinelRecords = ("", none) ∧
    "" ∉ sentinelRecords.map Speech.Speaker ∧
    ExtractFewestWords id overflowRecords = ("A", none) ∧
    mapGet (wordsMap overflowRecords) "A" = some MinInt64 ∧
    totalWords overflowRecords "B" < totalWords overflowRecords "A" := by
  decide

/-- C3, amended.  For every record list whose `Words` are Go `int` values and
in which some speaker's total, summed in wrapping 64-bit arithmetic, is below
`math.MaxInt64`, and for every iteration order of the summing map,
`ExtractFewestWords` returns, with a nil error, a speaker that occurs in the
list and whose 64-bit total over all of that speaker's records is at most the
64-bit total of every speaker of the list; when no total leaves the 64-bit
range these are the true totals.  For the records (A,10),(A,5),(B,3) it
returns B. -/
theorem extractFewestWords_fewest (iter : RangeOrder) (hv : RangeOrder.Valid iter)
    (speeches : List Speech) (hw : ∀ s ∈ speeches, InInt64 s.Words)
    (h : ∃ s ∈ speeches, wrap64 (totalWords speeches s.Speaker) < MaxInt64) :
    (ExtractFewestWords iter speeches).2 = none ∧
    (ExtractFewestWords iter speeches).1 ∈ speeches.map Speech.Speaker ∧
    (∀ s ∈ speeches, wrap64 (totalWords speeches (ExtractFewestWords iter speeches).1)
      ≤ wrap64 (totalWords speeches s.Speaker)) ∧
    ((∀ s ∈ speeches, InInt64 (totalWords speeches s.Speaker)) →
      ∀ s ∈ speeches, totalWords speeches (ExtractFewestWords iter speeches).1
        ≤ totalWords speeches s.Speaker) ∧
    ExtractFewestWords iter wordsExample = ("B", none) := by
  obtain ⟨hin, hle⟩ := wordsMap_fewest hv speeches hw h
  refine ⟨rfl, hin, hle, ?_, ?_⟩
  · intro hall s hs
    obtain ⟨r, hr, hreq⟩ := List.mem_map.mp hin
    have h1 := hle s hs
    rw [wrap64_of_inInt64 (hall s hs), ← hreq, wrap64_of_inInt64 (hall r hr)] at h1
    rw [← hreq]
    exact h1
  · have hex := wordsMap_fewest hv wordsExample (by decide)
      ⟨⟨"B", "T", "2012-01-01", 3⟩, by decide, by decide⟩
    obtain ⟨hin2, hle2⟩ := hex
    have hB := hle2 ⟨"B", "T", "2012-01-01", 3⟩ (by decide)
    have hcases : (ExtractFewestWords iter wordsExample).1 = "A" ∨
        (ExtractFewestWords iter wordsExample).1 = "B" := by
      simpa [wordsExample] using hin2
    rcases hcases with hA | hA
    · rw [hA] at hB
      exact absurd hB (by decide)
    · exact Prod.ext hA rfl

/-- C3 amended, at the fewest-words example with the map visited in insertion
order. -/
theorem extractFewestWords_fewest_witness :
    (∀ s ∈ wordsExample, InInt64 s.Words) ∧
    (∃ s ∈ wordsExample, wrap64 (totalWords wordsExample s.Speaker) < MaxInt64) ∧
    ExtractFewestWords id wordsExample = ("B", none) ∧
    (ExtractFewestWords id wordsExample).1 ∈ wordsExample.map Speech.Speaker ∧
    (∀ s ∈ wordsExample, wrap64 (totalWords wordsExample (ExtractFewestWords id wordsExample).1)
      ≤ wrap64 (totalWords wordsExample s.Speaker)) :=
  ⟨by decide, ⟨⟨"B", "T", "2012-01-01", 3⟩, by decide, by decide⟩, by decide,
    (extractFewestWords_fewest id rangeOrder_valid_id wordsExample (by decide)
      ⟨⟨"B", "T", "2012-01-01", 3⟩, by decide, by decide⟩).2.1,
    (extractFewestWords_fewest id rangeOrder_valid_id wordsExample (by decide)
      ⟨⟨"B", "T", "2012-01-01", 3⟩, by decide, by decide⟩).2.2.1⟩

/-- C4. On the empty record list, for every year, every topic and every
iteration order, the three aggregators return the empty string with a nil
error; the functions are total, no step of them can fault. -/
theorem aggregators_empty (iter : RangeOrder) (hv : RangeOrder.Valid iter)
    (year : Int) (topic : String) :
    ExtractMostSpeechesInYear iter [] year = ("", none) ∧
    ExtractMostSpeechesInTopic iter [] topic = ("", none) ∧
    ExtractFewestWords iter [] = ("", none) := by
  refine ⟨?_, ?_, ?_⟩
  · simp [ExtractMostSpeechesInYear, yearMap, getTopInMap_nil hv]
  · simp [ExtractMostSpeechesInTopic, topicMap, getTopInMap_nil hv]
  · simp [ExtractFewestWords, wordsMap, hv.nil, fewestLoop]

/-- C4, with the map visited in insertion order, year 2013 and the topic of
the handler. -/
theorem aggregators_empty_witness :
    ExtractMostSpeechesInYear id [] 2013 = ("", none) ∧
    ExtractMostSpeechesInTopic id [] "Internal Security" = ("", none) ∧
    ExtractFewestWords id [] = ("", none) :=
  aggregators_empty id rangeOrder_valid_id 2013 "Internal Security"

/-- C5. For every record list, possibly non-empty, and every iteration order:
when no record has a date that parses as a date of the year,
`ExtractMostSpeechesInYear` returns the empty string, and when no record has
the given Topic, `ExtractMostSpeechesInTopic` returns the empty string (both
with a nil error). -/
theorem most_noneQualifies (iter : RangeOrder) (hv : RangeOrder.Valid iter)
    (speeches : List Speech) (year : Int) (topic : String) :
    ((∀ s ∈ speeches, inYear year s = false) →
      ExtractMostSpeechesInYear iter speeches year = ("", none)) ∧
    ((∀ s ∈ speeches, s.Topic ≠ topic) →
      ExtractMostSpeechesInTopic iter speeches topic = ("", none)) := by
  constructor
  · intro h
    simp [ExtractMostSpeechesInYear, yearMap_eq, countFold_eq_nil _ _ h, getTopInMap_nil hv]
  · intro h
    have h2 : ∀ s ∈ speeches, inTopic topic s = false := by
      intro s hs
      simp [inTopic, h s hs]
    simp [ExtractMostSpeechesInTopic, topicMap_eq, countFold_eq_nil _ _ h2, getTopInMap_nil hv]

/-- C5, at the year example for the year 1999 and the topic `Budget`. -/
theorem most_noneQualifies_witness :
    yearExample ≠ [] ∧
    (∀ s ∈ yearExample, inYear 1999 s = false) ∧
    (∀ s ∈ yearExample, s.Topic ≠ "Budget") ∧
    ExtractMostSpeechesInYear id yearExample 1999 = ("", none) ∧
    ExtractMostSpeechesInTopic id yearExample "Budget" = ("", none) :=
  ⟨by decide, by decide, by decide,
    (most_noneQualifies id rangeOrder_valid_id yearExample 1999 "Budget").1 (by decide),
    (most_noneQualifies id rangeOrder_valid_id yearExample 1999 "Budget").2 (by decide)⟩

/-! ## The fetch worker and the merge -/

/-- C6. For every header row and every list of four-column rows after it,
`Process` sends the Task whose records are, in row order, the conversions of
exactly those rows whose trimmed fourth column is an integer for
`strconv.Atoi`: such a row yields its record, any other row yields none and
the rows after it are still converted.  For the rows `[A,T,2013-01-01,5]`,
`[B,T,2013-01-01,x]` after the header only the record of A is produced. -/
theorem process_records (out : List Task) (header : List String) (rows : List (List String))
    (h4 : ∀ row ∈ rows, row.length = 4) :
    Process out (.read (header :: rows))
      = .ok (out ++ [{ Error := none, SpeechValue := rows.filterMap rowRecord }]) ∧
    (∀ c0 c1 c2 c3 : String,
      (Atoi (TrimSpace c3) = none → rowRecord [c0, c1, c2, c3] = none) ∧
      (∀ words, Atoi (TrimSpace c3) = some words →
        rowRecord [c0, c1, c2, c3]
          = some { Speaker := TrimSpace c0, Topic := TrimSpace c1, Date := TrimSpace c2,
                   Words := words })) ∧
    Process out (.read rowsExample)
      = .ok (out ++ [{ Error := none, SpeechValue := [⟨"A", "T", "2013-01-01", 5⟩] }]) := by
  refine ⟨process_read_cons out header rows h4, ?_, ?_⟩
  · intro c0 c1 c2 c3
    constructor
    · intro h
      simp [rowRecord, h]
    · intro words h
      simp [rowRecord, h]
  · have hex : ∀ row ∈ rowsExample.drop 1, row.length = 4 := by decide
    have := process_read_cons out (["Speaker", "Topic", "Date", "Words"]) (rowsExample.drop 1) hex
    rw [show rowsExample = ["Speaker", "Topic", "Date", "Words"] :: rowsExample.drop 1 from rfl,
      this]
    have hrec : (rowsExample.drop 1).filterMap rowRecord = [⟨"A", "T", "2013-01-01", 5⟩] := by
      decide
    rw [hrec]

/-- C6, at the parser example. -/
theorem process_records_witness :
    (∀ row ∈ rowsExample.drop 1, row.length = 4) ∧
    Process [] (.read rowsExample)
      = .ok [{ Error := none, SpeechValue := (rowsExample.drop 1).filterMap rowRecord }] ∧
    (rowsExample.drop 1).filterMap rowRecord = [⟨"A", "T", "2013-01-01", 5⟩] :=
  ⟨by decide,
    (process_records [] ["Speaker", "Topic", "Date", "Words"] (rowsExample.drop 1)
      (by decide)).1,
    by decide⟩

/-- C7. For every first row and every list of four-column rows after it: the
outcome of `Process` is the same whatever the first row is, so the first row
never becomes a record (even when its fourth column is numeric); the outcome
is a success Task with at most as many records as there are rows minus one;
and a header-only input yields a success Task with no record. -/
theorem process_header (out : List Task) (header : List String) (rows : List (List String))
    (h4 : ∀ row ∈ rows, row.length = 4) :
    (∀ header2 : List String,
      Process out (.read (header2 :: rows)) = Process out (.read (header :: rows))) ∧
    (∃ speeches, Process out (.read (header :: rows))
        = .ok (out ++ [{ Error := none, SpeechValue := speeches }]) ∧
      speeches.length ≤ (header :: rows).length - 1) ∧
    Process out (.read [header]) = .ok (out ++ [{ Error := none, SpeechValue := [] }]) := by
  refine ⟨fun header2 => ?_, ⟨_, process_read_cons out header rows h4, ?_⟩, ?_⟩
  · simp [Process, sliceFrom1]
  · simpa using length_filterMap_rowRecord_le rows
  · simp [Process, sliceFrom1, convertRows]

/-- C7, with a first row that has a numeric fourth column. -/
theorem process_header_witness :
    (∀ row ∈ rowsExample.drop 1, row.length = 4) ∧
    Process [] (.read (["Z", "T", "2013-01-01", "7"] :: rowsExample.drop 1))
      = Process [] (.read rowsExample) ∧
    Process [] (.read rowsExample) = .ok [⟨none, [⟨"A", "T", "2013-01-01", 5⟩]⟩] ∧
    Process [] (.read [["Z", "T", "2013-01-01", "7"]]) = .ok [⟨none, []⟩] :=
  ⟨by decide,
    (process_header [] ["Speaker", "Topic", "Date", "Words"] (rowsExample.drop 1)
      (by decide)).1 ["Z", "T", "2013-01-01", "7"],
    by decide,
    (process_header [] ["Z", "T", "2013-01-01", "7"] (rowsExample.drop 1) (by decide)).2.2⟩

/-- C8 fails on the code.  When `ReadAll` returns no row at all (an empty
body), the slice expression `data[1:]` is out of bounds: `Process` ends in a
run-time fault and sends no Task. -/
theorem process_emptyRead_faults (out : List Task) :
    Process out (.read []) = .error "slice bounds out of range [1:0]" := by
  rfl

/-- C9. For every retrieval result other than the empty row list, with
four-column rows after the first: `Process` sends one Task; the Task has a
non-nil `Error` exactly when the download or the CSV read failed, and then it
carries no record; otherwise its `Error` is nil and it carries the records
parsed from the rows after the first.  No Task that `Process` sends, on any
input, has both a non-nil `Error` and a non-empty `SpeechValue`. -/
theorem process_task_shape (out : List Task) (r : Retrieval) (hne : r ≠ .read [])
    (h4 : ∀ data, r = .read data → ∀ row ∈ data.drop 1, row.length = 4) :
    (∃ t, Process out r = .ok (out ++ [t]) ∧
      (t.Error ≠ none ↔ r.failed = true) ∧
      (r.failed = true → t.SpeechValue = []) ∧
      (∀ data, r = .read data →
        t.Error = none ∧ t.SpeechValue = (data.drop 1).filterMap rowRecord) ∧
      ¬ (t.Error ≠ none ∧ t.SpeechValue ≠ [])) ∧
    (∀ (r2 : Retrieval) (ts : List Task), Process out r2 = .ok ts →
      ∃ t, ts = out ++ [t] ∧ (t.Error ≠ none ↔ r2.failed = true) ∧
        ¬ (t.Error ≠ none ∧ t.SpeechValue ≠ [])) := by
  constructor
  · cases r with
    | downloadFailed err =>
      exact ⟨_, rfl, by simp [Retrieval.failed], fun _ => rfl,
        fun data h => (by cases h), by simp⟩
    | readFailed readErr =>
      exact ⟨_, rfl, by simp [Retrieval.failed], fun _ => rfl,
        fun data h => (by cases h), by simp⟩
    | read data =>
      cases data with
      | nil => exact absurd rfl hne
      | cons header rows =>
        have h4r : ∀ row ∈ rows, row.length = 4 := h4 (header :: rows) rfl
        refine ⟨_, process_read_cons out header rows h4r, by simp [Retrieval.failed],
          by simp [Retrieval.failed], ?_, by simp⟩
        intro data h
        cases h
        exact ⟨rfl, rfl⟩
  · intro r2 ts h
    cases r2 with
    | downloadFailed err =>
      simp only [Process, Except.ok.injEq] at h
      exact ⟨_, h.symm, by simp [Retrieval.failed], by simp⟩
    | readFailed readErr =>
      simp only [Process, Except.ok.injEq] at h
      exact ⟨_, h.symm, by simp [Retrieval.failed], by simp⟩
    | read data =>
      simp only [Process] at h
      cases hs : sliceFrom1 data with
      | error e => rw [hs] at h; cases h
      | ok rows =>
        rw [hs] at h
        simp only at h
        cases hc : convertRows rows [] with
        | error e => rw [hc] at h; cases h
        | ok speeches =>
          rw [hc] at h
          simp only [Except.ok.injEq] at h
          exact ⟨_, h.symm, by simp [Retrieval.failed], by simp⟩

/-- C9, at a failed download and at the parser example. -/
theorem process_task_shape_witness :
    Retrieval.downloadFailed "timeout" ≠ .read [] ∧
    Retrieval.read rowsExample ≠ .read [] ∧
    (∀ row ∈ rowsExample.drop 1, row.length = 4) ∧
    (∃ t, Process [] (.downloadFailed "timeout") = .ok ([] ++ [t]) ∧
      (t.Error ≠ none ↔ (Retrieval.downloadFailed "timeout").failed = true) ∧
      ((Retrieval.downloadFailed "timeout").failed = true → t.SpeechValue = []) ∧
      (∀ data, Retrieval.downloadFailed "timeout" = .read data →
        t.Error = none ∧ t.SpeechValue = (data.drop 1).filterMap rowRecord) ∧
      ¬ (t.Error ≠ none ∧ t.SpeechValue ≠ [])) ∧
    (∃ t, Process [] (.read rowsExample) = .ok ([] ++ [t]) ∧
      (t.Error ≠ none ↔ (Retrieval.read rowsExample).failed = true) ∧
      ((Retrieval.read rowsExample).failed = true → t.SpeechValue = []) ∧
      (∀ data, Retrieval.read rowsExample = .read data →
        t.Error = none ∧ t.SpeechValue = (data.drop 1).filterMap rowRecord) ∧
      ¬ (t.Error ≠ none ∧ t.SpeechValue ≠ [])) :=
  ⟨by decide, by decide, by decide,
    (process_task_shape [] (.downloadFailed "timeout") (by decide)
      (fun data h => (by cases h))).1,
    (process_task_shape [] (.read rowsExample) (by decide)
      (fun data h => (by cases h; decide))).1⟩

/-- C10. For every sequence of collected Tasks, the merged record list is the
concatenation, in collection order, of the `SpeechValue` of exactly the Tasks
whose `Error` is nil: at every position of the sequence, a Task with a
non-nil `Error` adds nothing, and the records of a Task with a nil `Error`
stand together, in their order, between the records merged from the Tasks
before it and those merged from the Tasks after it. -/
theorem mergeTasks_concat (tasks : List Task) :
    mergeTasks tasks
      = ((tasks.filter (fun t => decide (t.Error = none))).map Task.SpeechValue).flatten ∧
    (∀ (before : List Task) (t : Task) (after : List Task), tasks = before ++ t :: after →
      (t.Error ≠ none → mergeTasks tasks = mergeTasks before ++ mergeTasks after) ∧
      (t.Error = none →
        mergeTasks tasks = mergeTasks before ++ t.SpeechValue ++ mergeTasks after)) := by
  refine ⟨mergeTasks_eq tasks, ?_⟩
  intro before t after h
  subst h
  constructor
  · intro hne
    simp [mergeTasks_eq, List.filter_append, List.filter_cons, hne]
  · intro he
    simp [mergeTasks_eq, List.filter_append, List.filter_cons, he]

/-- C10, at three collected Tasks of which the second is a failure. -/
theorem mergeTasks_concat_witness :
    mergeTasks tasksExample
      = [⟨"A", "T", "2013-01-01", 5⟩, ⟨"B", "T", "2013-01-02", 6⟩, ⟨"C", "T", "2013-01-03", 7⟩] ∧
    mergeTasks tasksExample
      = mergeTasks (tasksExample.take 1) ++ mergeTasks (tasksExample.drop 2) :=
  ⟨by decide,
    ((mergeTasks_concat tasksExample).2 (tasksExample.take 1)
      ⟨some "ERROR IN PROCESS(DOWNLOAD): timeout", []⟩ (tasksExample.drop 2) (by decide)).1
      (by decide)⟩

/-! ## The handler -/

theorem mergeTasks_eq_nil (tasks : List Task)
    (h : ∀ t ∈ tasks, t.Error ≠ none ∨ t.SpeechValue = []) : mergeTasks tasks = [] := by
  induction tasks using List.reverseRecOn with
  | nil => rfl
  | append_singleton tasks t ih =>
    rw [mergeTasks_snoc, ih (fun x hx => h x (List.mem_append_left _ hx))]
    rcases h t (by simp) with h1 | h1
    · rw [if_neg h1]
    · by_cases h2 : t.Error = none
      · rw [if_pos h2, h1]
        rfl
      · rw [if_neg h2]

theorem respond_of_merge_nil {iterYear iterTopic iterWords : RangeOrder}
    (hy : RangeOrder.Valid iterYear) (ht : RangeOrder.Valid iterTopic)
    (hw : RangeOrder.Valid iterWords) (tasks : List Task) (h : mergeTasks tasks = []) :
    respond iterYear iterTopic iterWords tasks
      = { MostSpeeches := "", MostSecurity := "", LeastWordy := "" } := by
  simp [respond, h, ExtractMostSpeechesInYear, ExtractMostSpeechesInTopic, ExtractFewestWords,
    yearMap, topicMap, wordsMap, getTopInMap_nil hy, getTopInMap_nil ht, hw.nil, fewestLoop]

theorem collect_snoc (slots : List Slot) (slot : Slot) :
    collect (slots ++ [slot])
      = match slot with
        | .received v ok => if ok then collect slots ++ [v] else collect slots
        | .timedOut => collect slots := by
  simp [collect, List.foldl_append]

theorem collect_eq (slots : List Slot) : collect slots = slots.filterMap Slot.task := by
  induction slots using List.reverseRecOn with
  | nil => rfl
  | append_singleton slots slot ih =>
    rw [collect_snoc, ih, List.filterMap_append]
    cases slot with
    | received v ok => cases ok <;> simp [Slot.task]
    | timedOut => simp [Slot.task]

theorem topLoop_append (a b : GoMap) (init : String × Int) :
    topLoop (a ++ b) init = topLoop b (topLoop a init) := by
  simp [topLoop, List.foldl_append]

theorem fewestLoop_append (a b : GoMap) (init : String × Int) :
    fewestLoop (a ++ b) init = fewestLoop b (fewestLoop a init) := by
  simp [fewestLoop, List.foldl_append]

/-- A candidate that is not strictly better never replaces the current best. -/
theorem topLoop_keep (it : GoMap) (best : String × Int) (h : ∀ e ∈ it, e.2 ≤ best.2) :
    topLoop it best = best := by
  induction it with
  | nil => rfl
  | cons e it ih =>
    have h1 : ¬ e.2 > best.2 := not_lt.mpr (h e (by simp))
    have hstep : topLoop (e :: it) best = topLoop it best := by
      simp [topLoop, h1]
    rw [hstep]
    exact ih (fun x hx => h x (List.mem_cons_of_mem _ hx))

/-- A candidate that is not strictly better never replaces the current best. -/
theorem fewestLoop_keep (it : GoMap) (best : String × Int) (h : ∀ e ∈ it, best.2 ≤ e.2) :
    fewestLoop it best = best := by
  induction it with
  | nil => rfl
  | cons e it ih =>
    have h1 : ¬ e.2 < best.2 := not_lt.mpr (h e (by simp))
    have hstep : fewestLoop (e :: it) best = fewestLoop it best := by
      simp [fewestLoop, h1]
    rw [hstep]
    exact ih (fun x hx => h x (List.mem_cons_of_mem _ hx))

theorem topLoop_first (before after : GoMap) (e : String × Int) (init : String × Int)
    (hinit : init.2 < e.2) (hb : ∀ x ∈ before, x.2 < e.2) (ha : ∀ x ∈ after, x.2 ≤ e.2) :
    topLoop (before ++ e :: after) init = (e.1, e.2) := by
  rw [topLoop_append]
  obtain ⟨_, _, h3⟩ := topLoop_spec before init
  have hlt : (topLoop before init).2 < e.2 := by
    rcases h3 with h3 | h3
    · rw [h3]; exact hinit
    · exact hb _ h3
  have hstep : topLoop (e :: after) (topLoop before init)
      = topLoop after
          (if e.2 > (topLoop before init).2 then (e.1, e.2) else topLoop before init) := rfl
  rw [hstep, if_pos hlt]
  exact topLoop_keep after (e.1, e.2) ha

theorem fewestLoop_first (before after : GoMap) (e : String × Int) (init : String × Int)
    (hinit : e.2 < init.2) (hb : ∀ x ∈ before, e.2 < x.2) (ha : ∀ x ∈ after, e.2 ≤ x.2) :
    fewestLoop (before ++ e :: after) init = (e.1, e.2) := by
  rw [fewestLoop_append]
  obtain ⟨_, _, h3⟩ := fewestLoop_spec before init
  have hlt : e.2 < (fewestLoop before init).2 := by
    rcases h3 with h3 | h3
    · rw [h3]; exact hinit
    · exact hb _ h3
  have hstep : fewestLoop (e :: after) (fewestLoop before init)
      = fewestLoop after
          (if e.2 < (fewestLoop before init).2 then (e.1, e.2) else fewestLoop before init) := rfl
  rw [hstep, if_pos hlt]
  exact fewestLoop_keep after (e.1, e.2) ha

/-- The "most" selection either keeps its initial state, every candidate being
at most the initial count, or ends on the first candidate of greatest value. -/
theorem topLoop_firstMax (it : GoMap) (init : String × Int) :
    (topLoop it init = init ∧ ∀ x ∈ it, x.2 ≤ init.2) ∨
    ∃ before e after, it = before ++ e :: after ∧ init.2 < e.2 ∧
      (∀ x ∈ before, x.2 < e.2) ∧ (∀ x ∈ after, x.2 ≤ e.2) ∧
      topLoop it init = (e.1, e.2) := by
  induction it using List.reverseRecOn with
  | nil => exact Or.inl ⟨rfl, by simp⟩
  | append_singleton l a ih =>
    rcases ih with ⟨h1, h2⟩ | ⟨b, e, af, hl, hi, hb, ha, hr⟩
    · by_cases hgt : init.2 < a.2
      · refine Or.inr ⟨l, a, [], rfl, hgt, fun x hx => lt_of_le_of_lt (h2 x hx) hgt,
          by simp, ?_⟩
        exact topLoop_first l [] a init hgt (fun x hx => lt_of_le_of_lt (h2 x hx) hgt)
          (by simp)
      · refine Or.inl ⟨?_, ?_⟩
        · rw [topLoop_append, h1]
          exact topLoop_keep [a] init (by simpa using not_lt.mp hgt)
        · intro x hx
          rcases List.mem_append.mp hx with hx | hx
          · exact h2 x hx
          · have : x = a := by simpa using hx
            rw [this]
            exact not_lt.mp hgt
    · have hall : ∀ x ∈ l, x.2 ≤ e.2 := by
        intro x hx
        rw [hl] at hx
        rcases List.mem_append.mp hx with hx | hx
        · exact le_of_lt (hb x hx)
        · rcases List.mem_cons.mp hx with hx | hx
          · rw [hx]
          · exact ha x hx
      by_cases hgt : e.2 < a.2
      · have hlt : ∀ x ∈ l, x.2 < a.2 := fun x hx => lt_of_le_of_lt (hall x hx) hgt
        refine Or.inr ⟨l, a, [], rfl, lt_trans hi hgt, hlt, by simp, ?_⟩
        exact topLoop_first l [] a init (lt_trans hi hgt) hlt (by simp)
      · have ha2 : ∀ x ∈ af ++ [a], x.2 ≤ e.2 := by
          intro x hx
          rcases List.mem_append.mp hx with hx | hx
          · exact ha x hx
          · have : x = a := by simpa using hx
            rw [this]
            exact not_lt.mp hgt
        refine Or.inr ⟨b, e, af ++ [a], by simp [hl], hi, hb, ha2, ?_⟩
        have : l ++ [a] = b ++ e :: (af ++ [a]) := by simp [hl]
        rw [this]
        exact topLoop_first b (af ++ [a]) e init hi hb ha2

/-- The "fewest" selection either keeps its initial state, every candidate
being at least the initial minimum, or ends on the first candidate of least
value. -/
theorem fewestLoop_firstMin (it : GoMap) (init : String × Int) :
    (fewestLoop it init = init ∧ ∀ x ∈ it, init.2 ≤ x.2) ∨
    ∃ before e after, it = before ++ e :: after ∧ e.2 < init.2 ∧
      (∀ x ∈ before, e.2 < x.2) ∧ (∀ x ∈ after, e.2 ≤ x.2) ∧
      fewestLoop it init = (e.1, e.2) := by
  induction it using List.reverseRecOn with
  | nil => exact Or.inl ⟨rfl, by simp⟩
  | append_singleton l a ih =>
    rcases ih with ⟨h1, h2⟩ | ⟨b, e, af, hl, hi, hb, ha, hr⟩
    · by_cases hgt : a.2 < init.2
      · refine Or.inr ⟨l, a, [], rfl, hgt, fun x hx => lt_of_lt_of_le hgt (h2 x hx),
          by simp, ?_⟩
        exact fewestLoop_first l [] a init hgt (fun x hx => lt_of_lt_of_le hgt (h2 x hx))
          (by simp)
      · refine Or.inl ⟨?_, ?_⟩
        · rw [fewestLoop_append, h1]
          exact fewestLoop_keep [a] init (by simpa using not_lt.mp hgt)
        · intro x hx
          rcases List.mem_append.mp hx with hx | hx
          · exact h2 x hx
          · have : x = a := by simpa using hx
            rw [this]
            exact not_lt.mp hgt
    · have hall : ∀ x ∈ l, e.2 ≤ x.2 := by
        intro x hx
        rw [hl] at hx
        rcases List.mem_append.mp hx with hx | hx
        · exact le_of_lt (hb x hx)
        · rcases List.mem_cons.mp hx with hx | hx
          · rw [hx]
          · exact ha x hx
      by_cases hgt : a.2 < e.2
      · have hlt : ∀ x ∈ l, a.2 < x.2 := fun x hx => lt_of_lt_of_le hgt (hall x hx)
        refine Or.inr ⟨l, a, [], rfl, lt_trans hgt hi, hlt, by simp, ?_⟩
        exact fewestLoop_first l [] a init (lt_trans hgt hi) hlt (by simp)
      · have ha2 : ∀ x ∈ af ++ [a], e.2 ≤ x.2 := by
          intro x hx
          rcases List.mem_append.mp hx with hx | hx
          · exact ha x hx
          · have : x = a := by simpa using hx
            rw [this]
            exact not_lt.mp hgt
        refine Or.inr ⟨b, e, af ++ [a], by simp [hl], hi, hb, ha2, ?_⟩
        have : l ++ [a] = b ++ e :: (af ++ [a]) := by simp [hl]
        rw [this]
        exact fewestLoop_first b (af ++ [a]) e init hi hb ha2

theorem topicMap_undated (l : List Speech) (topic : String) :
    topicMap l topic
      = (l.map Speech.undated).foldl
          (fun speakers u => if u.2.1 = topic then countSpeaker speakers u.1 else speakers) [] := by
  simp [topicMap, List.foldl_map, Speech.undated]

theorem wordsMap_undated (l : List Speech) :
    wordsMap l
      = (l.map Speech.undated).foldl
          (fun speakers u =>
            match mapGet speakers u.1 with
            | some v => mapSet speakers u.1 (wrap64 (v + u.2.2))
            | none => mapSet speakers u.1 u.2.2) [] := by
  rw [List.foldl_map]
  rfl

/-! ## The handler: claims -/

/-- C11. For every sequence of collected Tasks in which every Task is a
failure, the empty sequence of zero source URLs included, and for every
iteration order of the three maps, the response of the handler has
`mostSpeeches`, `mostSecurity` and `leastWordy` all equal to the empty string,
which is also the response for Tasks that all succeed with no record. -/
theorem evaluation_allFailed (iterYear iterTopic iterWords : RangeOrder)
    (hy : RangeOrder.Valid iterYear) (ht : RangeOrder.Valid iterTopic)
    (hw : RangeOrder.Valid iterWords) (tasks : List Task)
    (h : ∀ t ∈ tasks, t.Error ≠ none) :
    respond iterYear iterTopic iterWords tasks
      = { MostSpeeches := "", MostSecurity := "", LeastWordy := "" } ∧
    evaluation iterYear iterTopic iterWords []
      = { MostSpeeches := "", MostSecurity := "", LeastWordy := "" } ∧
    (∀ slots : List Slot, collect slots = tasks →
      evaluation iterYear iterTopic iterWords slots
        = { MostSpeeches := "", MostSecurity := "", LeastWordy := "" }) ∧
    (∀ succeeded : List Task, (∀ t ∈ succeeded, t.Error = none ∧ t.SpeechValue = []) →
      respond iterYear iterTopic iterWords succeeded
        = respond iterYear iterTopic iterWords tasks) := by
  have hmain := respond_of_merge_nil hy ht hw tasks
    (mergeTasks_eq_nil tasks (fun t htm => Or.inl (h t htm)))
  refine ⟨hmain, ?_, ?_, ?_⟩
  · exact respond_of_merge_nil hy ht hw [] rfl
  · intro slots hs
    simp only [evaluation, hs, hmain]
  · intro succeeded hs
    rw [hmain]
    exact respond_of_merge_nil hy ht hw succeeded
      (mergeTasks_eq_nil succeeded (fun t htm => Or.inr (hs t htm).2))

/-- C11, at two failed Tasks with the maps visited in insertion order. -/
theorem evaluation_allFailed_witness :
    (∀ t ∈ [(⟨some "ERROR IN PROCESS(DOWNLOAD): x", []⟩ : Task),
        ⟨some "ERROR IN PROCESS(READ): y", []⟩], t.Error ≠ none) ∧
    respond id id id [⟨some "ERROR IN PROCESS(DOWNLOAD): x", []⟩,
        ⟨some "ERROR IN PROCESS(READ): y", []⟩]
      = { MostSpeeches := "", MostSecurity := "", LeastWordy := "" } ∧
    respond id id id [⟨none, []⟩] = { MostSpeeches := "", MostSecurity := "", LeastWordy := "" } :=
  ⟨by decide,
    (evaluation_allFailed id id id rangeOrder_valid_id rangeOrder_valid_id rangeOrder_valid_id
      [⟨some "ERROR IN PROCESS(DOWNLOAD): x", []⟩, ⟨some "ERROR IN PROCESS(READ): y", []⟩]
      (by decide)).1,
    by decide⟩

/-- C15. In the collection loop, over any sequence of slots: the collected
Tasks are exactly the Tasks received in the slots that did not time out, in
slot order; a timed-out slot adds no Task and the loop goes on with the slots
after it; the response is computed from the received Tasks only, and every
record of a received successful Task is in the merged record list. -/
theorem collect_timeouts (slots : List Slot) :
    collect slots = slots.filterMap Slot.task ∧
    (∀ before after : List Slot, slots = before ++ Slot.timedOut :: after →
      collect slots = collect before ++ collect after) ∧
    (∀ (before after : List Slot) (v : Task), slots = before ++ Slot.received v true :: after →
      collect slots = collect before ++ v :: collect after) ∧
    (∀ iterYear iterTopic iterWords : RangeOrder,
      evaluation iterYear iterTopic iterWords slots
        = respond iterYear iterTopic iterWords (slots.filterMap Slot.task)) ∧
    (∀ v : Task, Slot.received v true ∈ slots → v.Error = none →
      ∀ s ∈ v.SpeechValue, s ∈ mergeTasks (collect slots)) := by
  refine ⟨collect_eq slots, ?_, ?_, ?_, ?_⟩
  · intro before after h
    subst h
    simp [collect_eq, Slot.task]
  · intro before after v h
    subst h
    simp [collect_eq, Slot.task]
  · intro iterYear iterTopic iterWords
    simp only [evaluation, collect_eq]
  · intro v hv herr s hs
    rw [mergeTasks_eq, collect_eq]
    simp only [List.mem_flatten, List.mem_map, List.mem_filter, List.mem_filterMap]
    exact ⟨v.SpeechValue, ⟨v, ⟨⟨_, hv, rfl⟩, by simp [herr]⟩, rfl⟩, hs⟩

/-- C15, at three slots of which the second timed out. -/
theorem collect_timeouts_witness :
    collect slotsExample
      = [⟨none, [⟨"A", "Internal Security", "2013-01-01", 5⟩]⟩,
         ⟨none, [⟨"A", "T", "2013-01-03", 7⟩, ⟨"B", "T", "2012-01-03", 3⟩]⟩] ∧
    collect slotsExample = collect (slotsExample.take 1) ++ collect (slotsExample.drop 2) ∧
    evaluation id id id slotsExample
      = { MostSpeeches := "A", MostSecurity := "A", LeastWordy := "B" } :=
  ⟨by decide,
    (collect_timeouts slotsExample).2.1 (slotsExample.take 1) (slotsExample.drop 2)
      (by decide),
    by decide⟩

/-- C16. Tie-break by strict improvement, the iteration order being the
sequence `iter m` of (speaker, value) pairs.  When some value of the sequence
is greater than 0, `GetTopInMap` returns the speaker of the first pair whose
value is the greatest one: every pair before it has a strictly smaller value
and every pair after it a value at most equal.  When some total is less than
`math.MaxInt64`, `ExtractFewestWords` returns the speaker of the first pair
whose total is the least one.  A later candidate with an equal (or worse)
value never replaces the current best. -/
theorem selection_firstBest (iter : RangeOrder) (m : GoMap) (speeches : List Speech) :
    ((∃ x ∈ iter m, 0 < x.2) →
      ∃ before e after, iter m = before ++ e :: after ∧
        (∀ x ∈ before, x.2 < e.2) ∧ (∀ x ∈ after, x.2 ≤ e.2) ∧
        GetTopInMap iter m = e.1) ∧
    ((∃ x ∈ iter (wordsMap speeches), x.2 < MaxInt64) →
      ∃ before e after, iter (wordsMap speeches) = before ++ e :: after ∧
        (∀ x ∈ before, e.2 < x.2) ∧ (∀ x ∈ after, e.2 ≤ x.2) ∧
        ExtractFewestWords iter speeches = (e.1, none)) ∧
    (∀ (later : GoMap) (best : String × Int), (∀ x ∈ later, x.2 ≤ best.2) →
      topLoop later best = best) ∧
    (∀ (later : GoMap) (best : String × Int), (∀ x ∈ later, best.2 ≤ x.2) →
      fewestLoop later best = best) := by
  refine ⟨?_, ?_, topLoop_keep, fewestLoop_keep⟩
  · rintro ⟨x, hx, hpos⟩
    rcases topLoop_firstMax (iter m) ("", 0) with ⟨_, h2⟩ | ⟨b, e, af, hl, _, hb, ha, hr⟩
    · exact absurd (h2 x hx) (not_le.mpr hpos)
    · exact ⟨b, e, af, hl, hb, ha, by simp [GetTopInMap, hr]⟩
  · rintro ⟨x, hx, hlt⟩
    rcases fewestLoop_firstMin (iter (wordsMap speeches)) ("", MaxInt64) with
      ⟨_, h2⟩ | ⟨b, e, af, hl, _, hb, ha, hr⟩
    · exact absurd (h2 x hx) (not_le.mpr hlt)
    · exact ⟨b, e, af, hl, hb, ha, by simp [ExtractFewestWords, hr]⟩

/-- C16, at a map in which B and C tie for the greatest value and a record
list in which B and C tie for the least total: the first of the two in the
iteration order is returned. -/
theorem selection_firstBest_witness :
    (∃ x ∈ (id [("A", 1), ("B", 2), ("C", 2)] : GoMap), 0 < x.2) ∧
    GetTopInMap id [("A", 1), ("B", 2), ("C", 2)] = "B" ∧
    GetTopInMap List.reverse [("A", 1), ("B", 2), ("C", 2)] = "C" ∧
    ExtractFewestWords id
        [⟨"A", "T", "d", 9⟩, ⟨"B", "T", "d", 3⟩, ⟨"C", "T", "d", 3⟩] = ("B", none) ∧
    (∃ before e after, (id [("A", 1), ("B", 2), ("C", 2)] : GoMap) = before ++ e :: after ∧
      (∀ x ∈ before, x.2 < e.2) ∧ (∀ x ∈ after, x.2 ≤ e.2) ∧
      GetTopInMap id [("A", 1), ("B", 2), ("C", 2)] = e.1) :=
  ⟨⟨("A", 1), by decide, by decide⟩, by decide, by decide, by decide,
    (selection_firstBest id [("A", 1), ("B", 2), ("C", 2)] []).1
      ⟨("A", 1), by decide, by decide⟩⟩

/-- C18. For every two record lists that agree position by position on
Speaker, Topic and Words (so they have equal length and differ at most in the
dates, valid or not), every topic and every iteration order:
`ExtractMostSpeechesInTopic` and `ExtractFewestWords` build the same map and
return the same result on both lists. -/
theorem date_only_year (iter : RangeOrder) (l1 l2 : List Speech) (topic : String)
    (h : l1.map Speech.undated = l2.map Speech.undated) :
    l1.length = l2.length ∧
    topicMap l1 topic = topicMap l2 topic ∧
    wordsMap l1 = wordsMap l2 ∧
    ExtractMostSpeechesInTopic iter l1 topic = ExtractMostSpeechesInTopic iter l2 topic ∧
    ExtractFewestWords iter l1 = ExtractFewestWords iter l2 := by
  have ht : topicMap l1 topic = topicMap l2 topic := by
    rw [topicMap_undated, topicMap_undated, h]
  have hw : wordsMap l1 = wordsMap l2 := by
    rw [wordsMap_undated, wordsMap_undated, h]
  refine ⟨?_, ht, hw, ?_, ?_⟩
  · simpa using congrArg List.length h
  · simp only [ExtractMostSpeechesInTopic, ht]
  · simp only [ExtractFewestWords, hw]

/-- C18, at the year example and its copy with unparseable dates: the year
aggregation changes, the other two do not. -/
theorem date_only_year_witness :
    yearExample.map Speech.undated
      = (yearExample.map (fun s => { s with Date := "no date" })).map Speech.undated ∧
    ExtractMostSpeechesInTopic id yearExample "T"
      = ExtractMostSpeechesInTopic id
          (yearExample.map (fun s => { s with Date := "no date" })) "T" ∧
    ExtractFewestWords id yearExample
      = ExtractFewestWords id (yearExample.map (fun s => { s with Date := "no date" })) ∧
    ExtractMostSpeechesInTopic id
        (yearExample.map (fun s => { s with Date := "no date" })) "T" = ("A", none) ∧
    ExtractMostSpeechesInYear id yearExample 2013 = ("A", none) ∧
    ExtractMostSpeechesInYear id
        (yearExample.map (fun s => { s with Date := "no date" })) 2013 = ("", none) :=
  ⟨by decide,
    (date_only_year id yearExample (yearExample.map (fun s => { s with Date := "no date" })) "T"
      (by decide)).2.2.2.1,
    (date_only_year id yearExample (yearExample.map (fun s => { s with Date := "no date" })) "T"
      (by decide)).2.2.2.2,
    by decide, by decide, by decide⟩

/-! ## The records of `Process`: trimming and magnitudes -/

theorem head?_dropWhile_not (p : Char → Bool) (l : List Char) (c : Char)
    (h : (l.dropWhile p).head? = some c) : p c = false := by
  induction l with
  | nil => simp at h
  | cons a t ih =>
    by_cases hp : p a = true
    · rw [List.dropWhile_cons_of_pos hp] at h
      exact ih h
    · rw [List.dropWhile_cons_of_neg hp] at h
      simp only [List.head?_cons, Option.some.injEq] at h
      rw [← h]
      simpa using hp

theorem getLast?_dropWhile (p : Char → Bool) (l : List Char) (h : l.dropWhile p ≠ []) :
    (l.dropWhile p).getLast? = l.getLast? := by
  induction l with
  | nil => rfl
  | cons a t ih =>
    by_cases hp : p a = true
    · rw [List.dropWhile_cons_of_pos hp] at h ⊢
      rw [ih h]
      cases t with
      | nil => simp at h
      | cons b t2 => rw [List.getLast?_cons_cons]
    · rw [List.dropWhile_cons_of_neg hp]

theorem trimChars_head (cs : List Char) (c : Char) (h : (trimChars cs).head? = some c) :
    isSpace c = false := by
  unfold trimChars at h
  rw [List.head?_reverse] at h
  have hne : ((cs.dropWhile isSpace).reverse).dropWhile isSpace ≠ [] := by
    intro h0
    rw [h0] at h
    simp at h
  rw [getLast?_dropWhile _ _ hne, List.getLast?_reverse] at h
  exact head?_dropWhile_not isSpace cs c h

theorem trimChars_getLast (cs : List Char) (c : Char) (h : (trimChars cs).getLast? = some c) :
    isSpace c = false := by
  unfold trimChars at h
  rw [List.getLast?_reverse] at h
  exact head?_dropWhile_not isSpace _ c h

/-- A trimmed string neither begins nor ends with white space. -/
theorem hasOuterSpace_TrimSpace (x : String) : hasOuterSpace (TrimSpace x) = false := by
  unfold hasOuterSpace TrimSpace
  simp only [Bool.or_eq_false_iff]
  constructor
  · cases h : (trimChars x.data).head? with
    | none => rfl
    | some c => exact trimChars_head _ c h
  · cases h : (trimChars x.data).getLast? with
    | none => rfl
    | some c => exact trimChars_getLast _ c h

theorem atoiDigits_some (neg : Bool) (ds : List Char) (w : Int)
    (h : atoiDigits neg ds = some w) : InInt64 w ∧ (w < 0 → neg = true) := by
  unfold atoiDigits at h
  split at h
  · cases h
  · split at h
    · split at h
      · cases h
        refine ⟨?_, fun _ => by assumption⟩
        unfold InInt64 MinInt64 MaxInt64
        omega
      · cases h
    · split at h
      · cases h
        refine ⟨?_, fun hneg => ?_⟩
        · unfold InInt64 MinInt64 MaxInt64
          omega
        · omega
      · cases h

/-- What `strconv.Atoi` returns without error is a Go `int`, and it is
negative only when the text begins with a minus sign. -/
theorem atoi_some (s : String) (w : Int) (h : Atoi s = some w) :
    InInt64 w ∧ (w < 0 → s.data.head? = some '-') := by
  unfold Atoi at h
  cases hd : s.data with
  | nil => rw [hd] at h; cases h
  | cons c ds =>
    rw [hd] at h
    simp only at h
    by_cases h1 : c = '-'
    · rw [if_pos h1] at h
      exact ⟨(atoiDigits_some _ _ _ h).1, fun _ => by simp [h1]⟩
    · rw [if_neg h1] at h
      by_cases h2 : c = '+'
      · rw [if_pos h2] at h
        obtain ⟨hr, hn⟩ := atoiDigits_some _ _ _ h
        exact ⟨hr, fun hneg => by cases hn hneg⟩
      · rw [if_neg h2] at h
        obtain ⟨hr, hn⟩ := atoiDigits_some _ _ _ h
        exact ⟨hr, fun hneg => by cases hn hneg⟩

/-- Every record of the conversion comes from a four-column row: its text
fields are the trimmed columns and its `Words` is what `strconv.Atoi` returns
for the trimmed fourth column. -/
theorem mem_filterMap_rowRecord (rows : List (List String)) (s : Speech)
    (h : s ∈ rows.filterMap rowRecord) :
    ∃ c0 c1 c2 c3 : String, [c0, c1, c2, c3] ∈ rows ∧
      s.Speaker = TrimSpace c0 ∧ s.Topic = TrimSpace c1 ∧ s.Date = TrimSpace c2 ∧
      Atoi (TrimSpace c3) = some s.Words := by
  obtain ⟨row, hrow, hrec⟩ := List.mem_filterMap.mp h
  rcases row with _ | ⟨c0, _ | ⟨c1, _ | ⟨c2, _ | ⟨c3, _ | ⟨c4, rest⟩⟩⟩⟩⟩ <;>
    simp only [rowRecord] at hrec <;> try cases hrec
  cases hA : Atoi (TrimSpace c3) with
  | none => rw [hA] at hrec; cases hrec
  | some w =>
    rw [hA] at hrec
    simp only [Option.map_some', Option.some.injEq] at hrec
    subst hrec
    exact ⟨c0, c1, c2, c3, hrow, rfl, rfl, rfl, hA⟩

/-! ## Determinism of the aggregators -/

theorem speakerCount_perm (q : Speech → Bool) {l1 l2 : List Speech} (hp : l1.Perm l2)
    (k : String) : speakerCount q l1 k = speakerCount q l2 k :=
  List.Perm.countP_eq _ hp

theorem totalWords_perm {l1 l2 : List Speech} (hp : l1.Perm l2) (k : String) :
    totalWords l1 k = totalWords l2 k :=
  List.Perm.sum_eq (List.Perm.map _ (List.Perm.filter _ hp))

theorem mergeTasks_perm {tasks1 tasks2 : List Task} (hp : tasks1.Perm tasks2) :
    (mergeTasks tasks1).Perm (mergeTasks tasks2) := by
  rw [mergeTasks_eq, mergeTasks_eq]
  exact List.Perm.flatten (List.Perm.map _ (List.Perm.filter _ hp))

/-- Without a tie for the best count, the "most" selection does not depend on
the order of the records nor on the iteration order of the map. -/
theorem countFold_deterministic {iter1 iter2 : RangeOrder} (hv1 : RangeOrder.Valid iter1)
    (hv2 : RangeOrder.Valid iter2) (q : Speech → Bool) {l1 l2 : List Speech}
    (hp : l1.Perm l2) (hlen : (l1.length : Int) ≤ MaxInt64) (hno : ¬ TieMost q l1) :
    GetTopInMap iter1 (countFold q l1) = GetTopInMap iter2 (countFold q l2) := by
  have hlen2 : (l2.length : Int) ≤ MaxInt64 := by
    rw [← hp.length_eq]
    exact hlen
  by_cases h : ∃ s ∈ l1, q s = true
  · have h2 : ∃ s ∈ l2, q s = true := by
      obtain ⟨s, hs, hq⟩ := h
      exact ⟨s, hp.mem_iff.mp hs, hq⟩
    obtain ⟨hpos1, hmax1⟩ := countFold_top hv1 q l1 hlen h
    obtain ⟨_, hmax2⟩ := countFold_top hv2 q l2 hlen2 h2
    by_contra hne
    apply hno
    refine ⟨_, _, hne, hpos1, ?_, hmax1⟩
    have ha := hmax1 (GetTopInMap iter2 (countFold q l2))
    have hb := hmax2 (GetTopInMap iter1 (countFold q l1))
    rw [← speakerCount_perm q hp, ← speakerCount_perm q hp] at hb
    omega
  · have hnone1 : ∀ s ∈ l1, q s = false := by
      intro s hs
      by_contra hq
      exact h ⟨s, hs, by simpa using hq⟩
    have hnone2 : ∀ s ∈ l2, q s = false := fun s hs => hnone1 s (hp.mem_iff.mpr hs)
    rw [countFold_eq_nil q l1 hnone1, countFold_eq_nil q l2 hnone2, getTopInMap_nil hv1,
      getTopInMap_nil hv2]

/-- When no 64-bit total is below `math.MaxInt64` the "fewest" selection keeps
its initial result, the empty string. -/
theorem extractFewestWords_none {iter : RangeOrder} (hv : RangeOrder.Valid iter)
    (l : List Speech) (hw : ∀ s ∈ l, InInt64 s.Words)
    (h : ¬ ∃ s ∈ l, wrap64 (totalWords l s.Speaker) < MaxInt64) :
    ExtractFewestWords iter l = ("", none) := by
  obtain ⟨hnd, hget⟩ := wordsMap_spec l hw
  have hall : ∀ e ∈ iter (wordsMap l), (("", MaxInt64) : String × Int).2 ≤ e.2 := by
    intro e he
    have hmem : (e.1, e.2) ∈ wordsMap l := (hv.mem _ _).mp he
    have hg := mapGet_of_mem hnd hmem
    rw [hget] at hg
    by_cases hin : e.1 ∈ l.map Speech.Speaker
    · rw [if_pos hin] at hg
      obtain ⟨s, hs, hsk⟩ := List.mem_map.mp hin
      have hval : wrap64 (totalWords l e.1) = e.2 := Option.some.inj hg
      by_contra hlt
      apply h
      refine ⟨s, hs, ?_⟩
      rw [hsk, hval]
      exact not_le.mp hlt
    · rw [if_neg hin] at hg
      cases hg
  simp only [ExtractFewestWords, fewestLoop_keep _ _ hall]

/-- Without a tie for the lowest 64-bit total, the "fewest" selection does not
depend on the order of the records nor on the iteration order of the map. -/
theorem wordsMap_deterministic {iter1 iter2 : RangeOrder} (hv1 : RangeOrder.Valid iter1)
    (hv2 : RangeOrder.Valid iter2) {l1 l2 : List Speech} (hp : l1.Perm l2)
    (hw : ∀ s ∈ l1, InInt64 s.Words) (hno : ¬ TieFewest l1) :
    ExtractFewestWords iter1 l1 = ExtractFewestWords iter2 l2 := by
  have hw2 : ∀ s ∈ l2, InInt64 s.Words := fun s hs => hw s (hp.mem_iff.mpr hs)
  by_cases h : ∃ s ∈ l1, wrap64 (totalWords l1 s.Speaker) < MaxInt64
  · have h2 : ∃ s ∈ l2, wrap64 (totalWords l2 s.Speaker) < MaxInt64 := by
      obtain ⟨s, hs, hlt⟩ := h
      exact ⟨s, hp.mem_iff.mp hs, by rw [← totalWords_perm hp]; exact hlt⟩
    obtain ⟨hin1, hmin1⟩ := wordsMap_fewest hv1 l1 hw h
    obtain ⟨hin2, hmin2⟩ := wordsMap_fewest hv2 l2 hw2 h2
    obtain ⟨s1, hs1, hk1⟩ := List.mem_map.mp hin1
    obtain ⟨s2, hs2, hk2⟩ := List.mem_map.mp hin2
    have hs2' : s2 ∈ l1 := hp.mem_iff.mpr hs2
    by_contra hne
    apply hno
    have hne2 : s1.Speaker ≠ s2.Speaker := by
      intro heq
      apply hne
      apply Prod.ext
      · rw [← hk1, ← hk2]
        exact heq
      · rfl
    have ha := hmin1 s2 hs2'
    have hb := hmin2 s1 (hp.mem_iff.mp hs1)
    rw [← hk1] at ha
    rw [← hk2, ← totalWords_perm hp, ← totalWords_perm hp] at hb
    refine ⟨s1, hs1, s2, hs2', hne2, le_antisymm ha hb, ?_⟩
    intro s hs
    have := hmin1 s hs
    rw [← hk1] at this
    exact this
  · have h2 : ¬ ∃ s ∈ l2, wrap64 (totalWords l2 s.Speaker) < MaxInt64 := by
      rintro ⟨s, hs, hlt⟩
      exact h ⟨s, hp.mem_iff.mpr hs, by rw [totalWords_perm hp]; exact hlt⟩
    rw [extractFewestWords_none hv1 l1 hw h, extractFewestWords_none hv2 l2 hw2 h2]

theorem tieFewestTrue_of_tieFewest (l : List Speech)
    (hall : ∀ s ∈ l, InInt64 (totalWords l s.Speaker)) (h : TieFewest l) :
    TieFewestTrue l := by
  obtain ⟨s1, hs1, s2, hs2, hne, heq, hmin⟩ := h
  refine ⟨s1, hs1, s2, hs2, hne, ?_, ?_⟩
  · rw [wrap64_of_inInt64 (hall s1 hs1), wrap64_of_inInt64 (hall s2 hs2)] at heq
    exact heq
  · intro s hs
    have := hmin s hs
    rw [wrap64_of_inInt64 (hall s1 hs1), wrap64_of_inInt64 (hall s hs)] at this
    exact this

theorem rangeOrder_valid_reverse : RangeOrder.Valid List.reverse :=
  fun m => List.reverse_perm m

/-! ## Determinism, magnitudes and trimming: claims -/

/-- C12 as stated fails.  In the records (A, `math.MaxInt64`),
(A, `math.MaxInt64`), (A, 2), (B, 0) the total of A is `2^64` and the total of
B is 0, so no two speakers tie for the lowest total; but the sum of A wraps to
0, and `ExtractFewestWords` returns A when the map is visited in insertion
order and B when it is visited in the reverse order. -/
theorem aggregates_deterministic_counterexample :
    RangeOrder.Valid id ∧ RangeOrder.Valid List.reverse ∧
    wrapTieRecords.Perm wrapTieRecords ∧
    totalWords wrapTieRecords "A" = 18446744073709551616 ∧
    totalWords wrapTieRecords "B" = 0 ∧
    ¬ TieFewestTrue wrapTieRecords ∧
    wordsMap wrapTieRecords = [("A", 0), ("B", 0)] ∧
    ExtractFewestWords id wrapTieRecords = ("A", none) ∧
    ExtractFewestWords List.reverse wrapTieRecords = ("B", none) :=
  ⟨rangeOrder_valid_id, rangeOrder_valid_reverse, List.Perm.refl _, by decide, by decide,
    by unfold TieFewestTrue; decide, by decide, by decide, by decide⟩

/-- C12, amended.  For every two record lists that are permutations of each
other (a Go slice, with Go `int` magnitudes) and every two iteration orders of
the maps, each of the three aggregators returns the same result on both,
unless two distinct speakers tie for the best count (year, topic) or for the
lowest total as the program sums it, in wrapping 64-bit arithmetic (fewest
words); when no total leaves the 64-bit range this is a tie of the true
totals.  The merged lists of two collection orders of the same Tasks are
permutations of each other. -/
theorem aggregates_deterministic (iter1 iter2 : RangeOrder) (hv1 : RangeOrder.Valid iter1)
    (hv2 : RangeOrder.Valid iter2) (l1 l2 : List Speech) (hp : l1.Perm l2)
    (hlen : (l1.length : Int) ≤ MaxInt64) (hw : ∀ s ∈ l1, InInt64 s.Words)
    (year : Int) (topic : String) :
    (¬ TieMost (inYear year) l1 →
      ExtractMostSpeechesInYear iter1 l1 year = ExtractMostSpeechesInYear iter2 l2 year) ∧
    (¬ TieMost (inTopic topic) l1 →
      ExtractMostSpeechesInTopic iter1 l1 topic = ExtractMostSpeechesInTopic iter2 l2 topic) ∧
    (¬ TieFewest l1 → ExtractFewestWords iter1 l1 = ExtractFewestWords iter2 l2) ∧
    ((∀ s ∈ l1, InInt64 (totalWords l1 s.Speaker)) → ¬ TieFewestTrue l1 →
      ExtractFewestWords iter1 l1 = ExtractFewestWords iter2 l2) ∧
    (∀ tasks1 tasks2 : List Task, tasks1.Perm tasks2 →
      (mergeTasks tasks1).Perm (mergeTasks tasks2)) := by
  refine ⟨?_, ?_, ?_, ?_, fun _ _ h => mergeTasks_perm h⟩
  · intro hno
    simp only [ExtractMostSpeechesInYear, yearMap_eq,
      countFold_deterministic hv1 hv2 (inYear year) hp hlen hno]
  · intro hno
    simp only [ExtractMostSpeechesInTopic, topicMap_eq,
      countFold_deterministic hv1 hv2 (inTopic topic) hp hlen hno]
  · intro hno
    exact wordsMap_deterministic hv1 hv2 hp hw hno
  · intro hall hno
    exact wordsMap_deterministic hv1 hv2 hp hw
      (fun h => hno (tieFewestTrue_of_tieFewest l1 hall h))

/-- C12 amended, at the fewest-words example and its reverse, with the maps
visited in insertion order and in reverse order. -/
theorem aggregates_deterministic_witness :
    wordsExample.Perm wordsExample.reverse ∧
    (wordsExample.length : Int) ≤ MaxInt64 ∧
    (∀ s ∈ wordsExample, InInt64 s.Words) ∧
    ¬ TieFewest wordsExample ∧
    ExtractFewestWords id wordsExample = ExtractFewestWords List.reverse wordsExample.reverse ∧
    ExtractFewestWords id wordsExample = ("B", none) :=
  ⟨(List.reverse_perm _).symm, by decide, by decide, by unfold TieFewest; decide,
    (aggregates_deterministic id List.reverse rangeOrder_valid_id rangeOrder_valid_reverse
      wordsExample wordsExample.reverse (List.reverse_perm _).symm (by decide) (by decide)
      2013 "Internal Security").2.2.1 (by unfold TieFewest; decide),
    by decide⟩

/-- C13 as stated fails.  For the row `[A,T,2013-01-01,-5]` after the header,
`strconv.Atoi` accepts the fourth column and `Process` produces a Speech with
`Words = -5`. -/
theorem process_words_counterexample :
    Process [] (.read negativeRows) = .ok [⟨none, [⟨"A", "T", "2013-01-01", -5⟩]⟩] ∧
    (⟨"A", "T", "2013-01-01", -5⟩ : Speech).Words < 0 := by
  decide

/-- C13, amended.  For every header and every list of four-column rows, every
Speech produced by `Process` has a magnitude in the range of a Go `int`, namely
what `strconv.Atoi` returns for the trimmed fourth column of its row; the
magnitude is negative only when that column begins with a minus sign, and
non-negative otherwise. -/
theorem process_words_range (out : List Task) (header : List String)
    (rows : List (List String)) (h4 : ∀ row ∈ rows, row.length = 4) :
    ∃ speeches, Process out (.read (header :: rows))
        = .ok (out ++ [{ Error := none, SpeechValue := speeches }]) ∧
      ∀ s ∈ speeches, InInt64 s.Words ∧
        ∃ c0 c1 c2 c3 : String, [c0, c1, c2, c3] ∈ rows ∧
          Atoi (TrimSpace c3) = some s.Words ∧
          (s.Words < 0 → (TrimSpace c3).data.head? = some '-') ∧
          ((TrimSpace c3).data.head? ≠ some '-' → 0 ≤ s.Words) := by
  refine ⟨_, process_read_cons out header rows h4, ?_⟩
  intro s hs
  obtain ⟨c0, c1, c2, c3, hrow, _, _, _, hA⟩ := mem_filterMap_rowRecord rows s hs
  obtain ⟨hr, hneg⟩ := atoi_some _ _ hA
  refine ⟨hr, c0, c1, c2, c3, hrow, hA, hneg, ?_⟩
  intro hhead
  by_contra hlt
  exact hhead (hneg (not_le.mp hlt))

/-- C13 amended, at the rows with a negative magnitude. -/
theorem process_words_range_witness :
    (∀ row ∈ negativeRows.drop 1, row.length = 4) ∧
    ∃ speeches, Process [] (.read (["Speaker", "Topic", "Date", "Words"] :: negativeRows.drop 1))
        = .ok ([] ++ [{ Error := none, SpeechValue := speeches }]) ∧
      ∀ s ∈ speeches, InInt64 s.Words ∧
        ∃ c0 c1 c2 c3 : String, [c0, c1, c2, c3] ∈ negativeRows.drop 1 ∧
          Atoi (TrimSpace c3) = some s.Words ∧
          (s.Words < 0 → (TrimSpace c3).data.head? = some '-') ∧
          ((TrimSpace c3).data.head? ≠ some '-' → 0 ≤ s.Words) :=
  ⟨by decide,
    process_words_range [] ["Speaker", "Topic", "Date", "Words"] (negativeRows.drop 1)
      (by decide)⟩

/-- C14. For every header and every list of four-column rows, every Speech
produced by `Process` comes from a row of which its Speaker, Topic and Date
are the first three columns with surrounding white space removed, so that
none of the three begins or ends with white space, and its `Words` is the
integer `strconv.Atoi` reads from the trimmed fourth column. -/
theorem process_trimmed (out : List Task) (header : List String)
    (rows : List (List String)) (h4 : ∀ row ∈ rows, row.length = 4) :
    ∃ speeches, Process out (.read (header :: rows))
        = .ok (out ++ [{ Error := none, SpeechValue := speeches }]) ∧
      ∀ s ∈ speeches,
        (∃ c0 c1 c2 c3 : String, [c0, c1, c2, c3] ∈ rows ∧
          s.Speaker = TrimSpace c0 ∧ s.Topic = TrimSpace c1 ∧ s.Date = TrimSpace c2 ∧
          Atoi (TrimSpace c3) = some s.Words) ∧
        hasOuterSpace s.Speaker = false ∧ hasOuterSpace s.Topic = false ∧
        hasOuterSpace s.Date = false := by
  refine ⟨_, process_read_cons out header rows h4, ?_⟩
  intro s hs
  obtain ⟨c0, c1, c2, c3, hrow, h0, h1, h2, hA⟩ := mem_filterMap_rowRecord rows s hs
  refine ⟨⟨c0, c1, c2, c3, hrow, h0, h1, h2, hA⟩, ?_, ?_, ?_⟩
  · rw [h0]; exact hasOuterSpace_TrimSpace c0
  · rw [h1]; exact hasOuterSpace_TrimSpace c1
  · rw [h2]; exact hasOuterSpace_TrimSpace c2

/-- C14, at a row with white space around every field. -/
theorem process_trimmed_witness :
    (∀ row ∈ paddedRows.drop 1, row.length = 4) ∧
    Process [] (.read paddedRows) = .ok [⟨none, [⟨"A", "T", "2013-01-01", 5⟩]⟩] ∧
    ∃ speeches, Process [] (.read (["Speaker", "Topic", "Date", "Words"] :: paddedRows.drop 1))
        = .ok ([] ++ [{ Error := none, SpeechValue := speeches }]) ∧
      ∀ s ∈ speeches,
        (∃ c0 c1 c2 c3 : String, [c0, c1, c2, c3] ∈ paddedRows.drop 1 ∧
          s.Speaker = TrimSpace c0 ∧ s.Topic = TrimSpace c1 ∧ s.Date = TrimSpace c2 ∧
          Atoi (TrimSpace c3) = some s.Words) ∧
        hasOuterSpace s.Speaker = false ∧ hasOuterSpace s.Topic = false ∧
        hasOuterSpace s.Date = false :=
  ⟨by decide, by decide,
    process_trimmed [] ["Speaker", "Topic", "Date", "Words"] (paddedRows.drop 1) (by decide)⟩

/-- C17 fails on the code.  The row `[A,T,2013-01-01,9223372036854775807]` is
accepted by `strconv.Atoi`, so `Process` produces a record whose magnitude,
and with it the total of A, equals the initial minimum `math.MaxInt64`; the
strict comparison never holds and `ExtractFewestWords` returns the empty
string on a non-empty record list, in either iteration order, and the
response has an empty `leastWordy`. -/
theorem fewest_sentinel_reached :
    Process [] (.read sentinelRows) = .ok [⟨none, sentinelRecords⟩] ∧
    sentinelRecords ≠ [] ∧
    mapGet (wordsMap sentinelRecords) "A" = some MaxInt64 ∧
    ¬ (∀ e ∈ wordsMap sentinelRecords, e.2 < MaxInt64) ∧
    ExtractFewestWords id sentinelRecords = ("", none) ∧
    ExtractFewestWords List.reverse sentinelRecords = ("", none) ∧
    (respond id id id [⟨none, sentinelRecords⟩]).LeastWordy = "" := by
  decide

end CsvEvaluation
